import Mathlib

/-!
Verification development for the Theseus L-BFGS-B optimisation driver
(`rust/src/optimizer.rs`).

The Rust code is shallowly embedded:

* `f64` is modelled by `Theseus.F`: an exact extended rational.  Finite
  doubles become arbitrary rationals (rounding is idealised away, as the
  specified properties are control-flow and ordering properties, not
  bit-level rounding properties), plus the two infinities and NaN.
  The comparison, `abs`, `max`/`min` and arithmetic operations follow
  IEEE-754 semantics (NaN-propagating, NaN incomparable).
* Vectors (`Vec<f64>`, `&[f64]`) become `List F`; the `ndarray::Array2`
  anchor matrices become row lists `List (List F)`.
* Interior mutability (`RefCell`) becomes explicit state passing: the
  objective closure and the iteration callback are state transformers on
  explicit record types.
* External collaborators (the `lbfgsb-rs-pure` solver, the
  `value_and_gradient` oracle, `FdmCache::new`, the final `solve_fdm`)
  are abstracted as function parameters; theorems quantify over them.
-/

set_option maxHeartbeats 1000000
set_option autoImplicit false

namespace Theseus

/-- Model of an IEEE-754 double: an exact rational (`fin`), `+∞`, `-∞`,
or NaN.  Rounding of finite arithmetic is idealised to exact rational
arithmetic. -/
inductive F where
  | fin (q : ℚ)
  | inf
  | ninf
  | nan
deriving DecidableEq

namespace F

/-- IEEE `<` on doubles: NaN compares false with everything. -/
def blt : F → F → Bool
  | fin a, fin b => decide (a < b)
  | fin _, inf => true
  | ninf, fin _ => true
  | ninf, inf => true
  | _, _ => false

/-- IEEE `<=` on doubles: NaN compares false with everything. -/
def ble : F → F → Bool
  | fin a, fin b => decide (a ≤ b)
  | fin _, inf => true
  | ninf, fin _ => true
  | ninf, inf => true
  | ninf, ninf => true
  | inf, inf => true
  | _, _ => false

/-- IEEE absolute value. -/
def abs : F → F
  | fin a => fin |a|
  | inf => inf
  | ninf => inf
  | nan => nan

/-- IEEE negation. -/
def neg : F → F
  | fin a => fin (-a)
  | inf => ninf
  | ninf => inf
  | nan => nan

/-- IEEE addition (`∞ + -∞ = NaN`, NaN propagates). -/
def add : F → F → F
  | fin a, fin b => fin (a + b)
  | fin _, inf => inf
  | inf, fin _ => inf
  | inf, inf => inf
  | fin _, ninf => ninf
  | ninf, fin _ => ninf
  | ninf, ninf => ninf
  | _, _ => nan

/-- IEEE subtraction. -/
def sub (a b : F) : F := add a (neg b)

/-- IEEE multiplication (`±∞ × 0 = NaN`, sign rules for infinities,
NaN propagates). -/
def mul : F → F → F
  | fin a, fin b => fin (a * b)
  | fin a, inf => if 0 < a then inf else if a < 0 then ninf else nan
  | inf, fin a => if 0 < a then inf else if a < 0 then ninf else nan
  | fin a, ninf => if 0 < a then ninf else if a < 0 then inf else nan
  | ninf, fin a => if 0 < a then ninf else if a < 0 then inf else nan
  | inf, inf => inf
  | inf, ninf => ninf
  | ninf, inf => ninf
  | ninf, ninf => inf
  | _, _ => nan

/-- IEEE division.  The model has no signed zero, so `x / 0` takes the
sign of `x` (`0 / 0 = NaN`). -/
def div : F → F → F
  | fin a, fin b =>
      if b = 0 then (if a = 0 then nan else if 0 < a then inf else ninf)
      else fin (a / b)
  | fin _, inf => fin 0
  | fin _, ninf => fin 0
  | inf, fin b => if 0 ≤ b then inf else ninf
  | ninf, fin b => if 0 ≤ b then ninf else inf
  | _, _ => nan

/-- Rust `f64::max`: returns the other operand when one is NaN. -/
def maxNum (a b : F) : F :=
  if a = nan then b else if b = nan then a else if blt a b then b else a

/-- Rust `f64::min`: returns the other operand when one is NaN. -/
def minNum (a b : F) : F :=
  if a = nan then b else if b = nan then a else if blt b a then b else a

/-- Rust `f64::is_finite` (false for NaN and the infinities). -/
def isFinite : F → Bool
  | fin _ => true
  | _ => false

/-- Rust `f64::is_infinite` (true only for the two infinities). -/
def isInfinite : F → Bool
  | inf => true
  | ninf => true
  | _ => false

end F

-- ─────────────────────────────────────────────────────────────
--  Data model (`types.rs` fields read by the optimizer)
-- ─────────────────────────────────────────────────────────────

/-- The slice of the crate's `Problem` read by `optimizer.rs`:
`topology.num_edges`, `anchors.variable_indices.len()`, the force-density
`bounds`, and the `solver` tolerances/budget. -/
structure Problem where
  numEdges : Nat
  numVariableAnchors : Nat
  lower : List F
  upper : List F
  absoluteTolerance : F
  relativeTolerance : F
  maxIterations : Nat

/-- The slice of the crate's `OptimizationState` read/written by
`optimizer.rs`.  The anchor matrix (`nvar × 3`) is modelled as a list of
row lists. -/
structure OptimizationState where
  forceDensities : List F
  variableAnchorPositions : List (List F)
  iterations : Nat
  lossTrace : List F

def MAX_RESTARTS : Nat := 3

def MIN_ITERATIONS_BEFORE_CONVERGENCE : Nat := 10

def CONVERGENCE_WINDOW : Nat := 5

-- ─────────────────────────────────────────────────────────────
--  Parameter packing / unpacking (`optimizer.rs` lines 30-62)
-- ─────────────────────────────────────────────────────────────

/-- `pack_parameters`: q first, then the variable-anchor rows, 3 entries
per row.  Out-of-shape `Array2` accesses (which panic in Rust) yield the
NaN default here; the round-trip theorems carry the shape hypotheses. -/
def pack_parameters (problem : Problem) (state : OptimizationState) : List F :=
  let nvar := problem.numVariableAnchors
  state.forceDensities ++
    (if 0 < nvar then
      (List.range nvar).flatMap (fun i =>
        [(state.variableAnchorPositions.getD i []).getD 0 F.nan,
         (state.variableAnchorPositions.getD i []).getD 1 F.nan,
         (state.variableAnchorPositions.getD i []).getD 2 F.nan])
    else [])

/-- `unpack_parameters`: the first `num_edges` entries are q, the rest is
reshaped into an `nvar × 3` row list (empty when there are no variable
anchors). -/
def unpack_parameters (problem : Problem) (theta : List F) : List F × List (List F) :=
  let ne := problem.numEdges
  let q := theta.take ne
  let nvar := problem.numVariableAnchors
  let anchors :=
    if 0 < nvar then
      (List.range nvar).map (fun i =>
        [theta.getD (ne + i * 3) F.nan,
         theta.getD (ne + i * 3 + 1) F.nan,
         theta.getD (ne + i * 3 + 2) F.nan])
    else []
  (q, anchors)

-- ─────────────────────────────────────────────────────────────
--  Bound precomputation and projection (`optimizer.rs` lines 68-101)
-- ─────────────────────────────────────────────────────────────

/-- `parameter_bounds`: force-density bounds verbatim, anchor coordinates
unconstrained (`±∞`). -/
def parameter_bounds (problem : Problem) : List F × List F :=
  let nvar := problem.numVariableAnchors
  let lb := problem.lower
  let ub := problem.upper
  if 0 < nvar then
    (lb ++ List.replicate (nvar * 3) F.ninf, ub ++ List.replicate (nvar * 3) F.inf)
  else (lb, ub)

/-- `project_to_bounds`: clamp `x` into the box `[lb, ub]` (two sequential
comparisons per component, exactly as in the source). -/
def project_to_bounds (x lb ub : List F) : List F :=
  (List.range x.length).map (fun i =>
    let xi := x.getD i F.nan
    let xi1 := if F.blt xi (lb.getD i F.nan) then lb.getD i F.nan else xi
    if F.blt (ub.getD i F.nan) xi1 then ub.getD i F.nan else xi1)

/-- `perturb_interior`: nudge each q-parameter with finite bounds and
positive range toward the bound midpoint by `strength`, clamping into the
box; everything else (infinite or degenerate bounds, anchor coordinates)
is left unchanged. -/
def perturb_interior (x lb ub : List F) (ne : Nat) (strength : F) : List F :=
  (List.range x.length).map (fun i =>
    let xi := x.getD i F.nan
    if i < ne then
      let lo := lb.getD i F.nan
      let hi := ub.getD i F.nan
      if hi.isInfinite || lo.isInfinite then xi
      else
        let range := F.sub hi lo
        if F.ble range (F.fin 0) then xi
        else
          let mid := F.mul (F.add lo hi) (F.fin (1/2))
          let nudge := F.mul (F.sub mid xi) strength
          F.minNum (F.maxNum (F.add xi nudge) lo) hi
    else xi)

-- ─────────────────────────────────────────────────────────────
--  Objective closure (`optimizer.rs` lines 147-153 and 166-189)
-- ─────────────────────────────────────────────────────────────

/-- Result of the external `value_and_gradient` oracle: the objective
value together with the gradient it writes into its out-parameter, or an
error.  Per the spec (§6) the oracle is a function of `θ`; its workspace
mutation of `FdmCache` is not semantically observable here. -/
inductive VagResult where
  | ok (val : F) (grad : List F)
  | err
deriving DecidableEq

/-- The contents of the `RefCell`s captured by the objective closure:
`loss_trace`, `best_x`, `best_f`, `last_valid_grad`. -/
structure EvalState where
  lossTrace : List F
  bestX : List F
  bestF : F
  lastValidGrad : List F
deriving DecidableEq

/-- The fresh per-sub-search closure state built at lines 148-152:
empty trace, `best_x = x.clone()`, `best_f = ∞`,
`last_valid_grad = vec![0.0; x.len()]`. -/
def freshEvalState (x : List F) : EvalState :=
  { lossTrace := [], bestX := x, bestF := F.inf,
    lastValidGrad := List.replicate x.length (F.fin 0) }

/-- The objective closure (lines 166-189) as a state transformer: on a
successful solve, push the loss, store the gradient, update the best
point, and return `(val, grad)`; on a failed solve, return the penalty
`best_f.abs().max(1.0) * 1e6` with the last valid gradient and leave the
state untouched. -/
def objectiveClosure (vag : List F → VagResult) (theta : List F)
    (s : EvalState) : (F × List F) × EvalState :=
  match vag theta with
  | .ok val grad =>
      let s1 := { s with lossTrace := s.lossTrace ++ [val], lastValidGrad := grad }
      let s2 := if F.blt val s1.bestF
                then { s1 with bestF := val, bestX := theta }
                else s1
      ((val, grad), s2)
  | .err =>
      let penalty := F.mul (F.maxNum s.bestF.abs (F.fin 1)) (F.fin 1000000)
      ((penalty, s.lastValidGrad), s)

/-- A sequence of closure invocations (the evaluation schedule chosen by
the quasi-Newton library), folded over the closure state. -/
def evalRun (vag : List F → VagResult) (thetas : List (List F))
    (s : EvalState) : EvalState :=
  thetas.foldl (fun st th => (objectiveClosure vag th st).2) s

-- ─────────────────────────────────────────────────────────────
--  Iteration callback (`optimizer.rs` lines 191-245)
-- ─────────────────────────────────────────────────────────────

/-- The fields of the library's per-iteration info record read by the
callback: `n_func_evals`, `f`, `iteration`, `proj_grad_norm`. -/
structure IterInfo where
  n_func_evals : Nat
  f : F
  iteration : Nat
  proj_grad_norm : F

/-- The contents of the `RefCell`s written by the iteration callback:
the `recent_f` sliding window and the `cancelled` flag. -/
structure CbState where
  recentF : List F
  cancelled : Bool
deriving DecidableEq

/-- The iteration-control value returned by the callback to the
library. -/
inductive IterationControl where
  | Continue
  | StopConverged
  | StopCustom
deriving DecidableEq

/-- Model of the FFI progress callback: it receives the evaluation count
and the current loss and returns an integer, `0` requesting a stop.  (The
node-geometry and force-density pointer arguments of the real callback
are elided: they do not influence the driver, only the callback's own
decision, which the model lets depend on the retained arguments.) -/
abbrev ProgressCallback := Nat → F → Int

/-- Lines 196-202: push the newest objective value into the sliding
window, dropping the oldest entry once the window exceeds
`CONVERGENCE_WINDOW`. -/
def pushWindow (rf : List F) (v : F) : List F :=
  let rf1 := rf ++ [v]
  if CONVERGENCE_WINDOW < rf1.length then rf1.drop 1 else rf1

/-- Lines 212-215: relative change of the objective across the window,
`|oldest - newest| / max(|oldest|, |newest|, 1)`. -/
def relChange (rf : List F) : F :=
  let oldest := rf.getD 0 F.nan
  let newest := rf.getD (rf.length - 1) F.nan
  let denom := F.maxNum (F.maxNum oldest.abs newest.abs) (F.fin 1)
  F.div (F.sub oldest newest).abs denom

/-- Line 224: an evaluation is reported when it is the first one or a
multiple of the (normalised) report frequency. -/
def reportDue (reportFreq : Nat) (evalCount : Nat) : Prop :=
  evalCount = 1 ∨ evalCount % reportFreq = 0

instance (r n : Nat) : Decidable (reportDue r n) := by
  unfold reportDue; infer_instance

/-- Lines 222-244: the progress-reporting tail of the iteration callback.
If a callback is present and the evaluation is due, invoke it; a `0`
return sets the cancelled flag and stops the sub-search. -/
def progressStep (reportFreq : Nat) (progressCb : Option ProgressCallback)
    (info : IterInfo) (s : CbState) : IterationControl × CbState :=
  match progressCb with
  | some cb =>
      if reportDue reportFreq info.n_func_evals then
        if cb info.n_func_evals info.f = 0 then
          (.StopCustom, { s with cancelled := true })
        else (.Continue, s)
      else (.Continue, s)
  | none => (.Continue, s)

/-- The iteration callback (lines 191-245): update the sliding window,
test the dual convergence criterion (cumulative iteration floor AND
projected-gradient tolerance AND windowed relative decrease), then fall
through to progress reporting. -/
def iterationCallback (absTol relTol : F) (reportFreq : Nat)
    (progressCb : Option ProgressCallback) (totalIterations : Nat)
    (info : IterInfo) (s : CbState) : IterationControl × CbState :=
  let rf := pushWindow s.recentF info.f
  let s1 := { s with recentF := rf }
  let iterSoFar := totalIterations + info.iteration
  if MIN_ITERATIONS_BEFORE_CONVERGENCE ≤ iterSoFar ∧
      F.ble info.proj_grad_norm absTol = true then
    if 2 ≤ rf.length then
      if F.blt (relChange rf) relTol = true then (.StopConverged, s1)
      else progressStep reportFreq progressCb info s1
    else progressStep reportFreq progressCb info s1
  else progressStep reportFreq progressCb info s1

-- ─────────────────────────────────────────────────────────────
--  The driver loop (`optimizer.rs` lines 111-312)
-- ─────────────────────────────────────────────────────────────

/-- The crate error type, restricted to what the driver produces or
propagates: `Cancelled`, plus abstract numerical errors (from
`FdmCache::new` / `solve_fdm`). -/
inductive TheseusError where
  | Cancelled
  | Numerical (code : Nat)
deriving DecidableEq

/-- Abstraction of the `lbfgsb-rs-pure` status enum.  The driver only
inspects the status via `format!("{:?}", status).contains("Converged")`;
only `Converged` debug-prints to a string containing `"Converged"`. -/
inductive SolStatus where
  | Converged
  | MaxIterReached
  | LineSearchFailure
  | UserStop
  | NumericalFailure
deriving DecidableEq

/-- The solution record returned by the library on `Ok`: the fields the
driver reads (`iterations`, `status`). -/
structure LbfgsbSolution where
  iterations : Nat
  status : SolStatus
deriving DecidableEq

/-- Model of the driver's `final_status` string: the initial `"MaxIter"`,
a debug-printed library status, or a library error message. -/
inductive FinalStatus where
  | MaxIterInit
  | fromStatus (s : SolStatus)
  | libErr
deriving DecidableEq

/-- `final_status.contains("Converged")`. -/
def statusConverged : FinalStatus → Bool
  | .fromStatus .Converged => true
  | _ => false

/-- Everything a sub-search leaves behind: the library's result and the
final contents of the closure cells (`loss_trace`/`best_x`/`best_f`/
`last_valid_grad`) and the callback cells (`recent_f`/`cancelled`).  The
library error payload is abstracted to `Unit`. -/
structure SubOutcome where
  result : Except Unit LbfgsbSolution
  eval : EvalState
  cb : CbState

/-- Abstraction of `LBFGSB::new(m).with_pgtol(pgtol).with_max_iter(n)
.minimize_with_callback(x, lb, ub, obj, itcb)`: an arbitrary
higher-order function that is handed the start point, the bounds, the
two (pure, state-passing) closures and their initial states, and
produces a `SubOutcome`.  Theorems quantify over it. -/
abbrev LbfgsbRun :=
  Nat → F → Nat → List F → List F → List F →
  (List F → EvalState → (F × List F) × EvalState) →
  (IterInfo → CbState → IterationControl × CbState) →
  EvalState → CbState → SubOutcome

/-- The external collaborators of `optimize`: the `value_and_gradient`
oracle, the quasi-Newton library, `FdmCache::new`, and the finalising
`solve_fdm`/`compute_geometry` pass (a function of the best q and
anchors). -/
structure Externals where
  vag : List F → VagResult
  lbfgsbRun : LbfgsbRun
  cacheNew : Except TheseusError Unit
  finalSolve : List F → List (List F) → Except TheseusError Unit

/-- Ghost record of one sub-search invocation: the restart index, the
start point, the remaining budget, the cumulative iteration count, the
initial closure/callback states handed to the library, and the outcome.
Recorded purely for specification; it does not feed back into the
computation. -/
structure SubInvocation where
  restartIdx : Nat
  startX : List F
  remainingIter : Nat
  totalIterBefore : Nat
  evalInit : EvalState
  cbInit : CbState
  outcome : SubOutcome

/-- The driver's loop-carried state (`optimizer.rs` lines 121-129), plus
the ghost invocation log.  `x` holds the start point handed to the most
recent sub-search; the in-place mutation of `x` by the library is not
tracked, since the driver never reads it (restarts overwrite it with the
global best, and finalisation uses `global_best_x`). -/
structure DriverState where
  x : List F
  globalBestX : List F
  globalBestF : F
  allTraces : List F
  totalIterations : Nat
  finalStatus : FinalStatus
  wasCancelled : Bool
  log : List SubInvocation

/-- Outcome of one iteration of the `for restart in 0..=MAX_RESTARTS`
body: fall through to the next restart, `break`, or propagate an error
(`FdmCache::new(problem)?`). -/
inductive LoopStep where
  | next (st : DriverState)
  | brk (st : DriverState)
  | fail (e : TheseusError)

/-- `0.02 * (restart as f64)`: the deterministic perturbation strength. -/
def restartStrength (restart : Nat) : F := F.fin ((2 / 100) * (restart : ℚ))

/-- The fresh callback state built at lines 148-149 (`loss_trace` and
`cancelled` cells; the `recent_f` window cell of line 153). -/
def freshCbState : CbState := { recentF := [], cancelled := false }

/-- Lines 136-140: the start point of the sub-search at restart index
`restart` — the initial (projected) point for the first sub-search, the
perturbed global best for every later one. -/
def subStartPoint (lb ub : List F) (ne : Nat) (restart : Nat)
    (st : DriverState) : List F :=
  if 0 < restart then
    perturb_interior st.globalBestX lb ub ne (restartStrength restart)
  else st.x

/-- Lines 157-246: one library sub-search: `LBFGSB::new(10)` with
`pgtol = 0` (internal convergence disabled) and the remaining iteration
budget, handed the objective closure, the iteration callback (capturing
the cumulative iteration count), and the fresh cell states. -/
def runSub (problem : Problem) (ext : Externals)
    (progressCb : Option ProgressCallback) (reportFreq : Nat)
    (lb ub : List F) (x : List F) (remainingIter totalIterations : Nat) :
    SubOutcome :=
  ext.lbfgsbRun 10 (F.fin 0) remainingIter x lb ub
    (objectiveClosure ext.vag)
    (iterationCallback problem.absoluteTolerance problem.relativeTolerance
      reportFreq progressCb totalIterations)
    (freshEvalState x) freshCbState

/-- Lines 248-260 (plus the ghost log append): harvest one sub-search
outcome — record the invocation, latch the cancellation flag, append the
trace, and merge the local best into the global best. -/
def harvested (st : DriverState) (restart : Nat) (x : List F)
    (remainingIter : Nat) (out : SubOutcome) : DriverState :=
  { st with
    x := x,
    log := st.log ++ [{ restartIdx := restart, startX := x,
                        remainingIter := remainingIter,
                        totalIterBefore := st.totalIterations,
                        evalInit := freshEvalState x, cbInit := freshCbState,
                        outcome := out : SubInvocation }],
    wasCancelled := st.wasCancelled || out.cb.cancelled,
    allTraces := st.allTraces ++ out.eval.lossTrace,
    globalBestX := if F.blt out.eval.bestF st.globalBestF then out.eval.bestX
                   else st.globalBestX,
    globalBestF := if F.blt out.eval.bestF st.globalBestF then out.eval.bestF
                   else st.globalBestF }

/-- Lines 262-275: the state after reacting to the library result — on
`Ok`, accumulate the iterations and record the debug-printed status; on
`Err`, record the error message as the status. -/
def stepState (st2 : DriverState) (out : SubOutcome) : DriverState :=
  match out.result with
  | .ok sol => { st2 with
      totalIterations := st2.totalIterations + sol.iterations,
      finalStatus := .fromStatus sol.status }
  | .error _ => { st2 with finalStatus := .libErr }

/-- Lines 262-279: whether this loop iteration `break`s — on `Ok`, when
the status converged or a cancellation was latched; on `Err`, only on
cancellation (otherwise a restart is attempted). -/
def stepStops (st2 : DriverState) (out : SubOutcome) : Bool :=
  match out.result with
  | .ok sol => statusConverged (.fromStatus sol.status) || st2.wasCancelled
  | .error _ => st2.wasCancelled

/-- One iteration of the restart loop (lines 135-280): perturb from the
global best on a restart, stop when fewer than 5 iterations remain,
create the fresh workspace and closure state, run the sub-search,
harvest it, then decide continue/break/propagate from the library status
and the cancellation flag. -/
def driverBody (problem : Problem) (ext : Externals)
    (progressCb : Option ProgressCallback) (reportFreq : Nat)
    (lb ub : List F) (restart : Nat) (st : DriverState) : LoopStep :=
  let x := subStartPoint lb ub problem.numEdges restart st
  let remainingIter := problem.maxIterations - st.totalIterations
  if remainingIter < 5 then .brk { st with x := x }
  else
    match ext.cacheNew with
    | .error e => .fail e
    | .ok _ =>
      let out := runSub problem ext progressCb reportFreq lb ub x
        remainingIter st.totalIterations
      let st2 := harvested st restart x remainingIter out
      if stepStops st2 out then .brk (stepState st2 out)
      else .next (stepState st2 out)

/-- The restart loop: run `driverBody` for restart indices
`r, r+1, ...` while fuel remains, stopping on `break` or error.  The
final driver state is returned alongside the propagated error, so the
ghost log stays observable. -/
def runRestarts (problem : Problem) (ext : Externals)
    (progressCb : Option ProgressCallback) (reportFreq : Nat)
    (lb ub : List F) : Nat → Nat → DriverState → DriverState × Option TheseusError
  | _, 0, st => (st, none)
  | r, fuel + 1, st =>
    match driverBody problem ext progressCb reportFreq lb ub r st with
    | .next st1 => runRestarts problem ext progressCb reportFreq lb ub (r + 1) fuel st1
    | .brk st1 => (st1, none)
    | .fail e => (st, some e)

/-- Line 117: `report_freq == 0` is normalised to `1`. -/
def normalizedReportFreq (reportFreq : Nat) : Nat :=
  if reportFreq = 0 then 1 else reportFreq

/-- The fields of the crate's `SolverResult` produced by the driver
itself.  The geometry fields (`xyz`, `member_lengths`, `member_forces`,
`reactions`) are copied verbatim from the external final forward solve
and are not modelled. -/
structure SolverResult where
  q : List F
  anchor_positions : List (List F)
  loss_trace : List F
  iterations : Nat
  converged : Bool
  termination_reason : FinalStatus
deriving DecidableEq

/-- The observable outcome of `optimize`: the returned
`Result<SolverResult, TheseusError>`, the (possibly updated) caller
state, and the final driver state with its ghost log. -/
structure OptimizeOutcome where
  result : Except TheseusError SolverResult
  stateOut : OptimizationState
  driver : DriverState

/-- Lines 121-122: the packed initial point, projected into the box. -/
def initialPoint (problem : Problem) (state : OptimizationState) : List F :=
  project_to_bounds (pack_parameters problem state)
    (parameter_bounds problem).1 (parameter_bounds problem).2

/-- Lines 124-129: the loop-carried driver state before the first
sub-search. -/
def initialDriverState (x0 : List F) : DriverState :=
  { x := x0, globalBestX := x0, globalBestF := F.inf, allTraces := [],
    totalIterations := 0, finalStatus := .MaxIterInit,
    wasCancelled := false, log := [] }

/-- `optimize` (lines 111-312): normalise the report frequency, pack and
project the initial point, run the restart loop, propagate cancellation
as `Err(Cancelled)`, otherwise unpack the global best, run the final
forward solve, and commit the result to the state. -/
def optimize (problem : Problem) (state : OptimizationState) (ext : Externals)
    (progressCb : Option ProgressCallback) (reportFreq : Nat) : OptimizeOutcome :=
  let reportFreq := normalizedReportFreq reportFreq
  let bounds := parameter_bounds problem
  let lb := bounds.1
  let ub := bounds.2
  let x0 := initialPoint problem state
  let st0 := initialDriverState x0
  let run := runRestarts problem ext progressCb reportFreq lb ub 0 (MAX_RESTARTS + 1) st0
  let stF := run.1
  match run.2 with
  | some e => { result := .error e, stateOut := state, driver := stF }
  | none =>
    if stF.wasCancelled then
      { result := .error .Cancelled, stateOut := state, driver := stF }
    else
      let qa := unpack_parameters problem stF.globalBestX
      match ext.cacheNew with
      | .error e => { result := .error e, stateOut := state, driver := stF }
      | .ok _ =>
        match ext.finalSolve qa.1 qa.2 with
        | .error e => { result := .error e, stateOut := state, driver := stF }
        | .ok _ =>
          let iters := if 0 < stF.totalIterations then stF.totalIterations
                       else stF.allTraces.length
          let stateOut := { state with
            forceDensities := qa.1, variableAnchorPositions := qa.2,
            iterations := iters, lossTrace := stF.allTraces }
          { result := .ok
              { q := qa.1, anchor_positions := qa.2,
                loss_trace := stF.allTraces, iterations := iters,
                converged := statusConverged stF.finalStatus,
                termination_reason := stF.finalStatus },
            stateOut := stateOut, driver := stF }

-- ─────────────────────────────────────────────────────────────
--  Factorization strategy selector (crate `types` module)
-- ─────────────────────────────────────────────────────────────

/-- The crate's `Bounds` aggregate: per-edge force-density lower/upper
bounds. -/
structure Bounds where
  lower : List F
  upper : List F

/-- The two factorization strategies. -/
inductive FactorizationStrategy where
  | Cholesky
  | LDL
deriving DecidableEq

/-- Modelled from the spec: `FactorizationStrategy::from_bounds` lives in
the crate's `types` module, which is not among the sources under review
(the diagnostic tests only assert its results).  Per spec §4.2 it is the
pure function returning the SPD (Cholesky) strategy exactly when every
force-density lower bound is strictly positive, and the
general-symmetric (LDL) strategy otherwise. -/
def FactorizationStrategy.from_bounds (b : Bounds) : FactorizationStrategy :=
  if b.lower.all (fun l => F.blt (F.fin 0) l) then .Cholesky else .LDL

-- ─────────────────────────────────────────────────────────────
--  Specification functions over the driver's ghost log
-- ─────────────────────────────────────────────────────────────

/-- Well-formedness of a logged sub-search invocation: the driver only
starts a sub-search when at least 5 budget iterations remain, and always
hands the library freshly initialised closure and callback states (fresh
quasi-Newton memory and cells are implicit in the per-iteration
construction). -/
def SubInvocation.wf (e : SubInvocation) : Prop :=
  5 ≤ e.remainingIter ∧ e.evalInit = freshEvalState e.startX ∧
  e.cbInit = freshCbState

/-- A sub-search outcome that triggers a restart rather than a break:
not cancelled, and the library status (when `Ok`) is not `Converged`. -/
def outcomeNonStop (o : SubOutcome) : Prop :=
  o.cb.cancelled = false ∧ ∀ sol, o.result = .ok sol → sol.status ≠ .Converged

/-- The global-best fold of lines 124-125 and 257-260: starting from the
initial projected point with `f = ∞`, each sub-search's local best
replaces the global best exactly when strictly smaller. -/
def harvestBest (x0 : List F) (outs : List SubOutcome) : List F × F :=
  outs.foldl
    (fun gb o => if F.blt o.eval.bestF gb.2 then (o.eval.bestX, o.eval.bestF)
                 else gb)
    (x0, F.inf)

/-- The outcomes recorded in the ghost log, in order. -/
def outcomesOf (log : List SubInvocation) : List SubOutcome :=
  log.map (fun e => e.outcome)

/-- Loop invariant of the restart loop, entering iteration `r` on the
live (`continue`) path: `r` sub-searches are logged, none was cancelled
or converged, the global best is the harvest fold of the logged
outcomes, sub-search 0 started from the projected initial point, and
every later sub-search `k` started from the perturbation (with strength
`0.02 k`) of the global best over the first `k` outcomes. -/
structure DriverInv (lb ub : List F) (ne : Nat) (x0 : List F) (r : Nat)
    (st : DriverState) : Prop where
  logLen : st.log.length = r
  notCancelled : st.wasCancelled = false
  gbest : (st.globalBestX, st.globalBestF) = harvestBest x0 (outcomesOf st.log)
  x0eq : r = 0 → st.x = x0
  idx : ∀ k (h : k < st.log.length), (st.log.get ⟨k, h⟩).restartIdx = k
  invWF : ∀ k (h : k < st.log.length), (st.log.get ⟨k, h⟩).wf
  nonStop : ∀ k (h : k < st.log.length), outcomeNonStop (st.log.get ⟨k, h⟩).outcome
  link : ∀ k (h : k < st.log.length), 0 < k →
    (st.log.get ⟨k, h⟩).startX =
      perturb_interior (harvestBest x0 ((outcomesOf st.log).take k)).1 lb ub ne
        (restartStrength k)
  first : ∀ h : 0 < st.log.length, (st.log.get ⟨0, h⟩).startX = x0

/-- What holds of the driver state when the restart loop has finished
(by break, fuel exhaustion, or error propagation): as `DriverInv`,
except that the last logged sub-search may have converged or been
cancelled, and a logged cancellation forces the driver's cancel flag. -/
structure DriverFinal (lb ub : List F) (ne : Nat) (x0 : List F)
    (st : DriverState) : Prop where
  gbest : (st.globalBestX, st.globalBestF) = harvestBest x0 (outcomesOf st.log)
  idx : ∀ k (h : k < st.log.length), (st.log.get ⟨k, h⟩).restartIdx = k
  invWF : ∀ k (h : k < st.log.length), (st.log.get ⟨k, h⟩).wf
  nonStopButLast : ∀ k (h : k < st.log.length), k + 1 < st.log.length →
    outcomeNonStop (st.log.get ⟨k, h⟩).outcome
  link : ∀ k (h : k < st.log.length), 0 < k →
    (st.log.get ⟨k, h⟩).startX =
      perturb_interior (harvestBest x0 ((outcomesOf st.log).take k)).1 lb ub ne
        (restartStrength k)
  first : ∀ h : 0 < st.log.length, (st.log.get ⟨0, h⟩).startX = x0
  cancelImp : ∀ k (h : k < st.log.length),
    (st.log.get ⟨k, h⟩).outcome.cb.cancelled = true → st.wasCancelled = true

/-- The box-feasibility predicate for the force-density block: the first
`ne` components exist and lie within `[lb, ub]`. -/
def inBoxQ (ne : Nat) (lb ub x : List F) : Prop :=
  ne ≤ x.length ∧ ∀ i, i < ne →
    F.ble (lb.getD i F.nan) (x.getD i F.nan) = true ∧
    F.ble (x.getD i F.nan) (ub.getD i F.nan) = true

-- ─────────────────────────────────────────────────────────────
--  Concrete collaborator instances (used by the witnesses)
-- ─────────────────────────────────────────────────────────────

/-- Externals whose library immediately reports a line-search-style
error without evaluating anything: used to instantiate the driver
theorems at a concrete input. -/
def trivialExt : Externals :=
  { vag := fun _ => .err,
    lbfgsbRun := fun _ _ _ _ _ _ _ _ e c =>
      { result := .error (), eval := e, cb := c },
    cacheNew := .ok (),
    finalSolve := fun _ _ => .ok () }

/-- A one-edge problem with box `[1, 2]` and a 20-iteration budget. -/
def tinyProblem : Problem :=
  { numEdges := 1, numVariableAnchors := 0, lower := [F.fin 1],
    upper := [F.fin 2], absoluteTolerance := F.fin 0,
    relativeTolerance := F.fin 0, maxIterations := 20 }

/-- An initial state for `tinyProblem` whose guess lies below the box. -/
def tinyState : OptimizationState :=
  { forceDensities := [F.fin 0], variableAnchorPositions := [],
    iterations := 0, lossTrace := [] }

/-- Externals whose "library" invokes the iteration callback once (first
evaluation, large gradient norm) and then reports a line-search error:
drives the cancellation path when the progress callback requests a
stop. -/
def cancellingExt : Externals :=
  { vag := fun _ => .err,
    lbfgsbRun := fun _ _ _ _ _ _ _ itcb e c =>
      { result := .error (),
        eval := e,
        cb := (itcb { n_func_evals := 1, f := F.fin 0, iteration := 0,
                      proj_grad_norm := F.inf } c).2 },
    cacheNew := .ok (),
    finalSolve := fun _ _ => .ok () }

/-- Externals whose "library" immediately reports convergence after 10
iterations without evaluating anything. -/
def convergingExt : Externals :=
  { vag := fun _ => .err,
    lbfgsbRun := fun _ _ _ _ _ _ _ _ e c =>
      { result := .ok { iterations := 10, status := .Converged },
        eval := e, cb := c },
    cacheNew := .ok (),
    finalSolve := fun _ _ => .ok () }

/-- The `SolverResult` produced by the `convergingExt` run on
`tinyProblem`/`tinyState`. -/
def tinyResult : SolverResult :=
  { q := [F.fin 1], anchor_positions := [], loss_trace := [],
    iterations := 10, converged := true,
    termination_reason := .fromStatus .Converged }

-- ─────────────────────────────────────────────────────────────
--  Helper lemmas
-- ─────────────────────────────────────────────────────────────

theorem F.blt_imp_ble {a b : F} (h : F.blt a b = true) : F.ble a b = true := by
  cases a <;> cases b <;> simp_all [F.blt, F.ble] <;> exact le_of_lt h

theorem F.ble_refl_of_ne_nan {a : F} (h : a ≠ F.nan) : F.ble a a = true := by
  cases a <;> simp_all [F.ble]

theorem F.blt_ne_nan_left {a b : F} (h : F.blt a b = true) : a ≠ F.nan := by
  cases a <;> simp_all [F.blt]

theorem F.blt_ne_nan_right {a b : F} (h : F.blt a b = true) : b ≠ F.nan := by
  cases a <;> cases b <;> simp_all [F.blt]

theorem F.ble_trans {a b c : F} (h1 : F.ble a b = true) (h2 : F.ble b c = true) :
    F.ble a c = true := by
  cases a <;> cases b <;> cases c <;> simp_all [F.ble] <;> exact le_trans h1 h2

theorem F.ble_of_not_blt {a b : F} (ha : a ≠ F.nan) (hb : b ≠ F.nan)
    (h : F.blt a b = false) : F.ble b a = true := by
  cases a <;> cases b <;> simp_all [F.blt, F.ble] <;> linarith

theorem F.ble_imp_not_blt {a b : F} (h : F.ble a b = true) :
    F.blt b a = false := by
  cases a <;> cases b <;> simp_all [F.blt, F.ble] <;> linarith

theorem list_ext_getD {l1 l2 : List F} (hlen : l1.length = l2.length)
    (h : ∀ k, k < l1.length → l1.getD k F.nan = l2.getD k F.nan) : l1 = l2 := by
  apply List.ext_getElem hlen
  intro i h1 h2
  have hi := h i h1
  rwa [List.getD_eq_getElem _ _ h1, List.getD_eq_getElem _ _ h2] at hi

theorem list3_getD_eta (row : List F) (h : row.length = 3) (d : F) :
    [row.getD 0 d, row.getD 1 d, row.getD 2 d] = row := by
  match row, h with
  | [a, b, c], _ => rfl

theorem length_range_flatMap_triple (f g h : Nat → F) (n : Nat) :
    ((List.range n).flatMap (fun j => [f j, g j, h j])).length = 3 * n := by
  induction n with
  | zero => simp
  | succ n ih =>
    rw [List.range_succ, List.flatMap_append, List.length_append, ih]
    simp
    omega

theorem getD_range_flatMap_triple (f g h : Nat → F) (n i : Nat) (hi : i < n) (d : F) :
    ((List.range n).flatMap (fun j => [f j, g j, h j])).getD (3 * i) d = f i ∧
    ((List.range n).flatMap (fun j => [f j, g j, h j])).getD (3 * i + 1) d = g i ∧
    ((List.range n).flatMap (fun j => [f j, g j, h j])).getD (3 * i + 2) d = h i := by
  induction n with
  | zero => omega
  | succ n ih =>
    rw [List.range_succ, List.flatMap_append]
    rcases Nat.lt_succ_iff_lt_or_eq.mp hi with hlt | heq
    · have hlen := length_range_flatMap_triple f g h n
      refine ⟨?_, ?_, ?_⟩ <;>
        rw [List.getD_append _ _ _ _ (by omega)] <;>
        [exact (ih hlt).1; exact (ih hlt).2.1; exact (ih hlt).2.2]
    · subst heq
      have hlen := length_range_flatMap_triple f g h i
      refine ⟨?_, ?_, ?_⟩ <;>
        rw [List.getD_append_right _ _ _ _ (by omega)] <;>
        simp [hlen]

theorem get_append_left_of_lt {α : Type} (l : List α) (e : α) (k : Nat)
    (h : k < l.length) (h2 : k < (l ++ [e]).length) :
    (l ++ [e]).get ⟨k, h2⟩ = l.get ⟨k, h⟩ := by
  rw [List.get_eq_getElem, List.get_eq_getElem]
  exact List.getElem_append_left h

theorem get_append_last {α : Type} (l : List α) (e : α)
    (h : l.length < (l ++ [e]).length) :
    (l ++ [e]).get ⟨l.length, h⟩ = e := by
  rw [List.get_eq_getElem]
  show (l ++ [e])[l.length] = e
  rw [List.getElem_append_right (by omega)]
  simp

theorem harvestBest_append (x0 : List F) (outs : List SubOutcome)
    (o : SubOutcome) :
    harvestBest x0 (outs ++ [o]) =
      if F.blt o.eval.bestF (harvestBest x0 outs).2
      then (o.eval.bestX, o.eval.bestF) else harvestBest x0 outs := by
  unfold harvestBest
  rw [List.foldl_append]
  simp

theorem outcomesOf_append (l : List SubInvocation) (e : SubInvocation) :
    outcomesOf (l ++ [e]) = outcomesOf l ++ [e.outcome] := by
  simp [outcomesOf]

theorem statusConverged_fromStatus_false {s : SolStatus} :
    statusConverged (.fromStatus s) = false ↔ s ≠ .Converged := by
  cases s <;> simp [statusConverged]

theorem driverInv_to_final {lb ub : List F} {ne : Nat} {x0 : List F}
    {r : Nat} {st : DriverState} (h : DriverInv lb ub ne x0 r st) :
    DriverFinal lb ub ne x0 st := by
  refine ⟨h.gbest, h.idx, h.invWF, ?_, h.link, h.first, ?_⟩
  · intro k hk _
    exact h.nonStop k hk
  · intro k hk hc
    rw [(h.nonStop k hk).1] at hc
    exact absurd hc (by simp)

theorem harvested_facts (lb ub : List F) (ne : Nat) (x0 : List F)
    (r rem : Nat) (st st2 : DriverState) (out : SubOutcome)
    (hInv : DriverInv lb ub ne x0 r st) (hrem : 5 ≤ rem)
    (hst2 : st2 = harvested st r (subStartPoint lb ub ne r st) rem out) :
    st2.log.length = r + 1 ∧
    (st2.globalBestX, st2.globalBestF) = harvestBest x0 (outcomesOf st2.log) ∧
    st2.wasCancelled = out.cb.cancelled ∧
    (∀ k (h : k < st2.log.length), (st2.log.get ⟨k, h⟩).restartIdx = k) ∧
    (∀ k (h : k < st2.log.length), (st2.log.get ⟨k, h⟩).wf) ∧
    (∀ k (h : k < st2.log.length), k + 1 < st2.log.length →
        outcomeNonStop (st2.log.get ⟨k, h⟩).outcome) ∧
    (∀ k (h : k < st2.log.length), 0 < k →
        (st2.log.get ⟨k, h⟩).startX =
          perturb_interior (harvestBest x0 ((outcomesOf st2.log).take k)).1
            lb ub ne (restartStrength k)) ∧
    (∀ h : 0 < st2.log.length, (st2.log.get ⟨0, h⟩).startX = x0) ∧
    (∀ h : r < st2.log.length, (st2.log.get ⟨r, h⟩).outcome = out) := by
  subst hst2
  have hlen : st.log.length = r := hInv.logLen
  refine ⟨?_, ?_, ?_, ?_, ?_, ?_, ?_, ?_, ?_⟩
  · simp [harvested, hlen]
  · show (if F.blt out.eval.bestF st.globalBestF then out.eval.bestX
          else st.globalBestX,
          if F.blt out.eval.bestF st.globalBestF then out.eval.bestF
          else st.globalBestF) = _
    rw [show (harvested st r (subStartPoint lb ub ne r st) rem out).log
          = st.log ++ [{ restartIdx := r,
                         startX := subStartPoint lb ub ne r st,
                         remainingIter := rem,
                         totalIterBefore := st.totalIterations,
                         evalInit := freshEvalState (subStartPoint lb ub ne r st),
                         cbInit := freshCbState,
                         outcome := out : SubInvocation }] from rfl]
    rw [outcomesOf_append, harvestBest_append, ← hInv.gbest]
    by_cases hcond : F.blt out.eval.bestF st.globalBestF = true
    · simp only [hcond, if_true]
    · simp only [Bool.not_eq_true] at hcond
      simp only [hcond, Bool.false_eq_true, if_false]
  · simp [harvested, hInv.notCancelled]
  · intro k h
    by_cases hk : k < st.log.length
    · rw [show (harvested st r (subStartPoint lb ub ne r st) rem out).log.get
            ⟨k, h⟩ = st.log.get ⟨k, hk⟩ from get_append_left_of_lt _ _ _ hk _]
      exact hInv.idx k hk
    · have hke : k = st.log.length := by
        simp only [harvested, List.length_append, List.length_cons,
          List.length_nil] at h
        omega
      subst hke
      rw [show (harvested st r (subStartPoint lb ub ne r st) rem out).log.get
            ⟨st.log.length, h⟩ = _ from get_append_last _ _ _]
      exact hlen.symm
  · intro k h
    by_cases hk : k < st.log.length
    · rw [show (harvested st r (subStartPoint lb ub ne r st) rem out).log.get
            ⟨k, h⟩ = st.log.get ⟨k, hk⟩ from get_append_left_of_lt _ _ _ hk _]
      exact hInv.invWF k hk
    · have hke : k = st.log.length := by
        simp only [harvested, List.length_append, List.length_cons,
          List.length_nil] at h
        omega
      subst hke
      rw [show (harvested st r (subStartPoint lb ub ne r st) rem out).log.get
            ⟨st.log.length, h⟩ = _ from get_append_last _ _ _]
      exact ⟨hrem, rfl, rfl⟩
  · intro k h hlast
    have hk : k < st.log.length := by
      simp only [harvested, List.length_append, List.length_cons,
        List.length_nil] at hlast
      omega
    rw [show (harvested st r (subStartPoint lb ub ne r st) rem out).log.get
          ⟨k, h⟩ = st.log.get ⟨k, hk⟩ from get_append_left_of_lt _ _ _ hk _]
    exact hInv.nonStop k hk
  · intro k h hk0
    by_cases hk : k < st.log.length
    · rw [show (harvested st r (subStartPoint lb ub ne r st) rem out).log.get
            ⟨k, h⟩ = st.log.get ⟨k, hk⟩ from get_append_left_of_lt _ _ _ hk _]
      rw [show (harvested st r (subStartPoint lb ub ne r st) rem out).log
            = st.log ++ [{ restartIdx := r,
                           startX := subStartPoint lb ub ne r st,
                           remainingIter := rem,
                           totalIterBefore := st.totalIterations,
                           evalInit :=
                             freshEvalState (subStartPoint lb ub ne r st),
                           cbInit := freshCbState,
                           outcome := out : SubInvocation }] from rfl]
      rw [outcomesOf_append, List.take_append_of_le_length (by
        simp only [outcomesOf, List.length_map]
        omega)]
      exact hInv.link k hk hk0
    · have hke : k = st.log.length := by
        simp only [harvested, List.length_append, List.length_cons,
          List.length_nil] at h
        omega
      subst hke
      rw [show (harvested st r (subStartPoint lb ub ne r st) rem out).log.get
            ⟨st.log.length, h⟩ = _ from get_append_last _ _ _]
      rw [show (harvested st r (subStartPoint lb ub ne r st) rem out).log
            = st.log ++ [{ restartIdx := r,
                           startX := subStartPoint lb ub ne r st,
                           remainingIter := rem,
                           totalIterBefore := st.totalIterations,
                           evalInit :=
                             freshEvalState (subStartPoint lb ub ne r st),
                           cbInit := freshCbState,
                           outcome := out : SubInvocation }] from rfl]
      rw [outcomesOf_append, List.take_append_of_le_length (by
        simp only [outcomesOf, List.length_map]
        omega)]
      show subStartPoint lb ub ne r st = _
      unfold subStartPoint
      rw [if_pos (by omega : 0 < r)]
      rw [show st.globalBestX = (harvestBest x0 (outcomesOf st.log)).1 from
        congrArg Prod.fst hInv.gbest]
      rw [show st.log.length = r from hlen]
      rw [show (outcomesOf st.log).take r = outcomesOf st.log from by
        rw [show r = (outcomesOf st.log).length by
          simp [outcomesOf, hlen]]
        exact List.take_length _]
  · intro h
    by_cases hr : 0 < st.log.length
    · rw [show (harvested st r (subStartPoint lb ub ne r st) rem out).log.get
            ⟨0, h⟩ = st.log.get ⟨0, hr⟩ from get_append_left_of_lt _ _ _ hr _]
      exact hInv.first hr
    · have hr0 : st.log.length = 0 := by omega
      have hre : r = 0 := by omega
      have h0 : (0 : Nat) = st.log.length := hr0.symm
      rw [show (harvested st r (subStartPoint lb ub ne r st) rem out).log.get
            ⟨0, h⟩ = (harvested st r (subStartPoint lb ub ne r st) rem
              out).log.get ⟨st.log.length, h0 ▸ h⟩ from by
        congr 1
        exact Fin.ext h0]
      rw [show (harvested st r (subStartPoint lb ub ne r st) rem out).log.get
            ⟨st.log.length, h0 ▸ h⟩ = _ from get_append_last _ _ _]
      show subStartPoint lb ub ne r st = x0
      unfold subStartPoint
      rw [if_neg (by omega)]
      exact hInv.x0eq hre
  · intro h
    have h0 : r = st.log.length := hlen.symm
    rw [show (harvested st r (subStartPoint lb ub ne r st) rem out).log.get
          ⟨r, h⟩ = (harvested st r (subStartPoint lb ub ne r st) rem
            out).log.get ⟨st.log.length, h0 ▸ h⟩ from by
      congr 1
      exact Fin.ext h0]
    rw [show (harvested st r (subStartPoint lb ub ne r st) rem out).log.get
          ⟨st.log.length, h0 ▸ h⟩ = _ from get_append_last _ _ _]

theorem runRestarts_spec (problem : Problem) (ext : Externals)
    (progressCb : Option ProgressCallback) (reportFreq : Nat)
    (lb ub x0 : List F) :
    ∀ (fuel r : Nat) (st : DriverState),
      DriverInv lb ub problem.numEdges x0 r st →
      DriverFinal lb ub problem.numEdges x0
        (runRestarts problem ext progressCb reportFreq lb ub r fuel st).1 ∧
      (runRestarts problem ext progressCb reportFreq lb ub r fuel
        st).1.log.length ≤ r + fuel ∧
      ((runRestarts problem ext progressCb reportFreq lb ub r fuel st).2
          ≠ none →
        (runRestarts problem ext progressCb reportFreq lb ub r fuel
          st).1.wasCancelled = false) := by
  intro fuel
  induction fuel with
  | zero =>
    intro r st hInv
    refine ⟨driverInv_to_final hInv, ?_, ?_⟩
    · show st.log.length ≤ r + 0
      rw [hInv.logLen]
      omega
    · intro h
      exact absurd rfl h
  | succ fuel ih =>
    intro r st hInv
    have hstep : runRestarts problem ext progressCb reportFreq lb ub r
        (fuel + 1) st
        = match driverBody problem ext progressCb reportFreq lb ub r st with
          | .next st1 =>
              runRestarts problem ext progressCb reportFreq lb ub (r + 1)
                fuel st1
          | .brk st1 => (st1, none)
          | .fail e => (st, some e) := rfl
    rw [hstep]
    simp only [driverBody]
    by_cases hbud : problem.maxIterations - st.totalIterations < 5
    · rw [if_pos hbud]
      have hf := driverInv_to_final hInv
      refine ⟨⟨hf.gbest, hf.idx, hf.invWF, hf.nonStopButLast, hf.link,
        hf.first, hf.cancelImp⟩, ?_, ?_⟩
      · show st.log.length ≤ r + (fuel + 1)
        rw [hInv.logLen]
        omega
      · intro h
        exact absurd rfl h
    · rw [if_neg hbud]
      cases hcn : ext.cacheNew with
      | error e =>
        dsimp only
        refine ⟨driverInv_to_final hInv, ?_, fun _ => hInv.notCancelled⟩
        show st.log.length ≤ r + (fuel + 1)
        rw [hInv.logLen]
        omega
      | ok u =>
        dsimp only
        set out := runSub problem ext progressCb reportFreq lb ub
          (subStartPoint lb ub problem.numEdges r st)
          (problem.maxIterations - st.totalIterations) st.totalIterations
          with hout
        set st2 := harvested st r (subStartPoint lb ub problem.numEdges r st)
          (problem.maxIterations - st.totalIterations) out with hst2
        obtain ⟨hA, hB, hC, hD, hE, hFn, hG, hH, hI⟩ :=
          harvested_facts lb ub problem.numEdges x0 r
            (problem.maxIterations - st.totalIterations) st st2 out hInv
            (by omega) hst2
        cases hres : out.result with
        | ok sol =>
          simp only [stepState, stepStops, hres]
          by_cases hstop :
              (statusConverged (.fromStatus sol.status) || st2.wasCancelled)
                = true
          · rw [if_pos hstop]
            dsimp only
            refine ⟨⟨hB, hD, hE, hFn, hG, hH, ?_⟩, ?_, fun h => absurd rfl h⟩
            · intro k h hcanc
              by_cases hklast : k + 1 < st2.log.length
              · rw [(hFn k h hklast).1] at hcanc
                exact absurd hcanc (by simp)
              · have hk : k = r := by
                  have hcopy : k < st2.log.length := h
                  omega
                subst hk
                rw [hI h] at hcanc
                show st2.wasCancelled = true
                rw [hC]
                exact hcanc
            · show st2.log.length ≤ r + (fuel + 1)
              rw [hA]
              omega
          · rw [if_neg hstop]
            dsimp only
            have h2 : (statusConverged (.fromStatus sol.status)
                || st2.wasCancelled) = false := by
              rcases Bool.eq_false_or_eq_true
                (statusConverged (.fromStatus sol.status)
                  || st2.wasCancelled) with htrue | hfalse
              · exact absurd htrue hstop
              · exact hfalse
            rw [Bool.or_eq_false_iff] at h2
            have hinv1 : DriverInv lb ub problem.numEdges x0 (r + 1)
                { st2 with
                  totalIterations := st2.totalIterations + sol.iterations,
                  finalStatus := .fromStatus sol.status } := by
              refine ⟨hA, h2.2, hB, ?_, hD, hE, ?_, hG, hH⟩
              · intro habs
                exact absurd habs (by omega)
              · intro k h
                by_cases hklast : k + 1 < st2.log.length
                · exact hFn k h hklast
                · have hk : k = r := by
                    have hcopy : k < st2.log.length := h
                    omega
                  subst hk
                  rw [hI h]
                  refine ⟨?_, ?_⟩
                  · rw [← hC]
                    exact h2.2
                  · intro sol2 hso
                    rw [hres] at hso
                    have : sol2 = sol := (Except.ok.inj hso).symm
                    subst this
                    exact statusConverged_fromStatus_false.mp h2.1
            have hres2 := ih (r + 1)
              { st2 with
                totalIterations := st2.totalIterations + sol.iterations,
                finalStatus := .fromStatus sol.status } hinv1
            refine ⟨hres2.1, ?_, hres2.2.2⟩
            have := hres2.2.1
            omega
        | error err =>
          simp only [stepState, stepStops, hres]
          by_cases hstop : st2.wasCancelled = true
          · rw [if_pos hstop]
            dsimp only
            refine ⟨⟨hB, hD, hE, hFn, hG, hH, ?_⟩, ?_, fun h => absurd rfl h⟩
            · intro k h hcanc
              exact hstop
            · show st2.log.length ≤ r + (fuel + 1)
              rw [hA]
              omega
          · rw [if_neg hstop]
            dsimp only
            have h2 : st2.wasCancelled = false := by
              rcases Bool.eq_false_or_eq_true st2.wasCancelled with ht | hf
              · exact absurd ht hstop
              · exact hf
            have hinv1 : DriverInv lb ub problem.numEdges x0 (r + 1)
                { st2 with finalStatus := .libErr } := by
              refine ⟨hA, h2, hB, ?_, hD, hE, ?_, hG, hH⟩
              · intro habs
                exact absurd habs (by omega)
              · intro k h
                by_cases hklast : k + 1 < st2.log.length
                · exact hFn k h hklast
                · have hk : k = r := by
                    have hcopy : k < st2.log.length := h
                    omega
                  subst hk
                  rw [hI h]
                  refine ⟨?_, ?_⟩
                  · rw [← hC]
                    exact h2
                  · intro sol2 hso
                    rw [hres] at hso
                    exact absurd hso (by simp)
            have hres2 := ih (r + 1) { st2 with finalStatus := .libErr } hinv1
            refine ⟨hres2.1, ?_, hres2.2.2⟩
            have := hres2.2.1
            omega

theorem driverInv_init (lb ub x0 : List F) (ne : Nat) :
    DriverInv lb ub ne x0 0 (initialDriverState x0) := by
  refine ⟨rfl, rfl, rfl, fun _ => rfl, ?_, ?_, ?_, ?_, ?_⟩
  · intro k h
    exact absurd h (by simp [initialDriverState])
  · intro k h
    exact absurd h (by simp [initialDriverState])
  · intro k h
    exact absurd h (by simp [initialDriverState])
  · intro k h
    exact absurd h (by simp [initialDriverState])
  · intro h
    exact absurd h (by simp [initialDriverState])

theorem optimize_driver_eq (problem : Problem) (state : OptimizationState)
    (ext : Externals) (progressCb : Option ProgressCallback)
    (reportFreq : Nat) :
    (optimize problem state ext progressCb reportFreq).driver =
      (runRestarts problem ext progressCb (normalizedReportFreq reportFreq)
        (parameter_bounds problem).1 (parameter_bounds problem).2 0
        (MAX_RESTARTS + 1)
        (initialDriverState (initialPoint problem state))).1 := by
  unfold optimize
  dsimp only
  split
  · rfl
  · split
    · rfl
    · cases ext.cacheNew with
      | error e => rfl
      | ok u =>
        dsimp only
        split
        · rfl
        · rfl

theorem perturb_interior_length (x lbv ubv : List F) (nev : Nat) (s : F) :
    (perturb_interior x lbv ubv nev s).length = x.length := by
  simp [perturb_interior]

theorem perturb_interior_touched (x lbv ubv : List F) (nev : Nat) (s : F)
    (i : Nat) (hx : i < x.length) (hne : i < nev) (lo hi : ℚ)
    (hlo : lbv.getD i F.nan = F.fin lo) (hhi : ubv.getD i F.nan = F.fin hi)
    (hrange : ¬ hi - lo ≤ 0) :
    (perturb_interior x lbv ubv nev s).getD i F.nan =
      F.minNum
        (F.maxNum
          (F.add (x.getD i F.nan)
            (F.mul
              (F.sub (F.mul (F.add (F.fin lo) (F.fin hi)) (F.fin (1/2)))
                (x.getD i F.nan)) s))
          (F.fin lo))
        (F.fin hi) := by
  unfold perturb_interior
  rw [List.getD_eq_getElem _ _ (by simpa using hx), List.getElem_map,
    List.getElem_range]
  rw [if_pos hne, hlo, hhi]
  rw [if_neg (by simp [F.isInfinite])]
  rw [if_neg (by simp [F.sub, F.neg, F.add, F.ble]; linarith)]

theorem perturb_interior_untouched (x lbv ubv : List F) (nev : Nat) (s : F)
    (i : Nat) (hx : i < x.length)
    (hu : ¬ i < nev ∨ (ubv.getD i F.nan).isInfinite = true ∨
          (lbv.getD i F.nan).isInfinite = true ∨
          F.ble (F.sub (ubv.getD i F.nan) (lbv.getD i F.nan)) (F.fin 0)
            = true) :
    (perturb_interior x lbv ubv nev s).getD i F.nan = x.getD i F.nan := by
  unfold perturb_interior
  rw [List.getD_eq_getElem _ _ (by simpa using hx), List.getElem_map,
    List.getElem_range]
  rcases hu with h | h | h | h
  · rw [if_neg h]
  · by_cases hne : i < nev
    · rw [if_pos hne, if_pos (by rw [h]; simp)]
    · rw [if_neg hne]
  · by_cases hne : i < nev
    · rw [if_pos hne, if_pos (by rw [h]; simp)]
    · rw [if_neg hne]
  · by_cases hne : i < nev
    · rw [if_pos hne]
      by_cases hinf : ((ubv.getD i F.nan).isInfinite
          || (lbv.getD i F.nan).isInfinite) = true
      · rw [if_pos hinf]
      · rw [if_neg hinf, if_pos h]
    · rw [if_neg hne]

theorem cancelled_progressStep_stopCustom {rf : Nat}
    {pcb : Option ProgressCallback} {info : IterInfo} {s : CbState}
    (hs : s.cancelled = false)
    (h : (progressStep rf pcb info s).2.cancelled = true) :
    (progressStep rf pcb info s).1 = .StopCustom := by
  unfold progressStep at h ⊢
  cases pcb with
  | none =>
    dsimp only at h
    rw [hs] at h
    exact absurd h (by decide)
  | some cb =>
    dsimp only at h ⊢
    split_ifs at h ⊢
    · rfl
    · dsimp only at h
      rw [hs] at h
      exact absurd h (by decide)
    · dsimp only at h
      rw [hs] at h
      exact absurd h (by decide)

theorem optimize_result_cancelled (problem : Problem)
    (state : OptimizationState) (ext : Externals)
    (progressCb : Option ProgressCallback) (reportFreq : Nat)
    (hwc : (runRestarts problem ext progressCb
        (normalizedReportFreq reportFreq) (parameter_bounds problem).1
        (parameter_bounds problem).2 0 (MAX_RESTARTS + 1)
        (initialDriverState (initialPoint problem state))).1.wasCancelled
        = true)
    (hnone : (runRestarts problem ext progressCb
        (normalizedReportFreq reportFreq) (parameter_bounds problem).1
        (parameter_bounds problem).2 0 (MAX_RESTARTS + 1)
        (initialDriverState (initialPoint problem state))).2 = none) :
    (optimize problem state ext progressCb reportFreq).result
      = .error .Cancelled := by
  unfold optimize
  dsimp only
  rw [hnone]
  dsimp only
  rw [if_pos hwc]

theorem harvestFold_mono (outs : List SubOutcome) :
    ∀ init : List F × F, init.2 ≠ F.nan →
      (outs.foldl
        (fun gb o => if F.blt o.eval.bestF gb.2
                     then (o.eval.bestX, o.eval.bestF) else gb) init).2
        ≠ F.nan ∧
      F.ble (outs.foldl
        (fun gb o => if F.blt o.eval.bestF gb.2
                     then (o.eval.bestX, o.eval.bestF) else gb) init).2
        init.2 = true := by
  induction outs with
  | nil =>
    intro init h
    exact ⟨h, F.ble_refl_of_ne_nan h⟩
  | cons o rest ih =>
    intro init h
    rw [List.foldl_cons]
    by_cases hc : F.blt o.eval.bestF init.2 = true
    · rw [if_pos hc]
      have hne : o.eval.bestF ≠ F.nan := F.blt_ne_nan_left hc
      obtain ⟨h1, h2⟩ := ih (o.eval.bestX, o.eval.bestF) hne
      exact ⟨h1, F.ble_trans h2 (F.blt_imp_ble hc)⟩
    · rw [if_neg hc]
      exact ih init h

theorem harvestBest_snd_ne_nan (x0 : List F) (outs : List SubOutcome) :
    (harvestBest x0 outs).2 ≠ F.nan :=
  (harvestFold_mono outs (x0, F.inf) (by simp)).1

theorem harvestBest_take_mono (x0 : List F) (outs : List SubOutcome)
    (k kk : Nat) (hk : k ≤ kk) :
    F.ble (harvestBest x0 (outs.take kk)).2
      (harvestBest x0 (outs.take k)).2 = true := by
  have hsplit : outs.take kk = outs.take k ++ (outs.take kk).drop k := by
    nth_rewrite 1 [← List.take_append_drop k (outs.take kk)]
    rw [List.take_take, Nat.min_eq_left hk]
  rw [hsplit]
  unfold harvestBest
  rw [List.foldl_append]
  exact (harvestFold_mono ((outs.take kk).drop k) _
    (harvestBest_snd_ne_nan x0 (outs.take k))).2

theorem objectiveClosure_bestF_mono (vag : List F → VagResult)
    (theta : List F) (s : EvalState) (hs : s.bestF ≠ F.nan) :
    F.ble (objectiveClosure vag theta s).2.bestF s.bestF = true ∧
    (objectiveClosure vag theta s).2.bestF ≠ F.nan := by
  unfold objectiveClosure
  cases vag theta with
  | ok val grad =>
    dsimp only
    by_cases hc : F.blt val s.bestF = true
    · rw [if_pos hc]
      exact ⟨F.blt_imp_ble hc, F.blt_ne_nan_left hc⟩
    · rw [if_neg hc]
      exact ⟨F.ble_refl_of_ne_nan hs, hs⟩
  | err =>
    exact ⟨F.ble_refl_of_ne_nan hs, hs⟩

theorem evalRun_bestF_mono (vag : List F → VagResult)
    (thetas : List (List F)) :
    ∀ s : EvalState, s.bestF ≠ F.nan →
      F.ble (evalRun vag thetas s).bestF s.bestF = true ∧
      (evalRun vag thetas s).bestF ≠ F.nan := by
  induction thetas with
  | nil =>
    intro s h
    exact ⟨F.ble_refl_of_ne_nan h, h⟩
  | cons th rest ih =>
    intro s h
    show F.ble (evalRun vag rest (objectiveClosure vag th s).2).bestF
      s.bestF = true ∧ _
    obtain ⟨h1, h2⟩ := objectiveClosure_bestF_mono vag th s h
    obtain ⟨h3, h4⟩ := ih (objectiveClosure vag th s).2 h2
    exact ⟨F.ble_trans h3 h1, h4⟩

theorem stepState_globalBestX (st2 : DriverState) (out : SubOutcome) :
    (stepState st2 out).globalBestX = st2.globalBestX := by
  unfold stepState
  cases out.result <;> rfl

theorem stepState_x (st2 : DriverState) (out : SubOutcome) :
    (stepState st2 out).x = st2.x := by
  unfold stepState
  cases out.result <;> rfl

theorem optimize_ok_q (problem : Problem) (state : OptimizationState)
    (ext : Externals) (progressCb : Option ProgressCallback)
    (reportFreq : Nat) (res : SolverResult)
    (h : (optimize problem state ext progressCb reportFreq).result
      = .ok res) :
    res.q = (unpack_parameters problem
      ((optimize problem state ext progressCb reportFreq).driver.globalBestX)).1
      ∧
    ((optimize problem state ext progressCb
      reportFreq).stateOut.forceDensities) = res.q := by
  unfold optimize at h ⊢
  dsimp only at h ⊢
  split at h
  · exact absurd h (by simp)
  · rename_i heqnone
    split at h
    · exact absurd h (by simp)
    · rename_i hwc
      rw [if_neg hwc]
      split at h
      · exact absurd h (by simp)
      · rename_i u hcacheok
        split at h
        · exact absurd h (by simp)
        · rename_i a hfsok
          dsimp only at h
          have hres := (Except.ok.inj h).symm
          subst hres
          exact ⟨rfl, rfl⟩

theorem F.ble_ne_nan_left {a b : F} (h : F.ble a b = true) : a ≠ F.nan := by
  cases a <;> simp_all [F.ble]

theorem F.ble_ne_nan_right {a b : F} (h : F.ble a b = true) : b ≠ F.nan := by
  cases a <;> cases b <;> simp_all [F.ble]

theorem F.clamp2_mem (lo hi xv : F) (hbox : F.ble lo hi = true)
    (hx : xv ≠ F.nan) :
    F.ble lo
      (if F.blt hi (if F.blt xv lo then lo else xv) then hi
       else (if F.blt xv lo then lo else xv)) = true ∧
    F.ble
      (if F.blt hi (if F.blt xv lo then lo else xv) then hi
       else (if F.blt xv lo then lo else xv)) hi = true := by
  cases lo <;> cases hi <;> cases xv <;>
    simp_all [F.blt, F.ble] <;> split_ifs <;> simp_all <;> linarith

theorem F.clampMaxMin_mem (v : F) (qlo qhi : ℚ) (hlt : qlo < qhi) :
    F.ble (F.fin qlo) (F.minNum (F.maxNum v (F.fin qlo)) (F.fin qhi))
      = true ∧
    F.ble (F.minNum (F.maxNum v (F.fin qlo)) (F.fin qhi)) (F.fin qhi)
      = true := by
  cases v <;>
    simp_all [F.maxNum, F.minNum, F.blt, F.ble] <;>
    first
      | linarith
      | (split_ifs <;> simp_all <;> linarith)

theorem getD_take (l : List F) (n i : Nat) (d : F) (h1 : i < n)
    (h2 : i < l.length) : (l.take n).getD i d = l.getD i d := by
  rw [List.getD_eq_getElem _ _ (by rw [List.length_take]; omega),
    List.getD_eq_getElem _ _ h2]
  exact List.getElem_take _

theorem project_to_bounds_length (x lbv ubv : List F) :
    (project_to_bounds x lbv ubv).length = x.length := by
  simp [project_to_bounds]

theorem project_to_bounds_getD (x lbv ubv : List F) (i : Nat)
    (hi : i < x.length) :
    (project_to_bounds x lbv ubv).getD i F.nan =
      (if F.blt (ubv.getD i F.nan)
          (if F.blt (x.getD i F.nan) (lbv.getD i F.nan)
           then lbv.getD i F.nan else x.getD i F.nan)
       then ubv.getD i F.nan
       else (if F.blt (x.getD i F.nan) (lbv.getD i F.nan)
             then lbv.getD i F.nan else x.getD i F.nan)) := by
  unfold project_to_bounds
  rw [List.getD_eq_getElem _ _ (by simpa using hi), List.getElem_map,
    List.getElem_range]

theorem project_to_bounds_inBoxQ (x lbv ubv : List F) (ne : Nat)
    (hlen : ne ≤ x.length)
    (hbox : ∀ i, i < ne →
      F.ble (lbv.getD i F.nan) (ubv.getD i F.nan) = true)
    (hnan : ∀ i, i < ne → x.getD i F.nan ≠ F.nan) :
    inBoxQ ne lbv ubv (project_to_bounds x lbv ubv) := by
  refine ⟨by rw [project_to_bounds_length]; exact hlen, ?_⟩
  intro i hi
  rw [project_to_bounds_getD x lbv ubv i (by omega)]
  exact F.clamp2_mem (lbv.getD i F.nan) (ubv.getD i F.nan)
    (x.getD i F.nan) (hbox i hi) (hnan i hi)

theorem perturb_preserves_inBoxQ (x lbv ubv : List F) (nev : Nat) (s : F)
    (hbox : inBoxQ nev lbv ubv x) :
    inBoxQ nev lbv ubv (perturb_interior x lbv ubv nev s) := by
  obtain ⟨hlen, hmem⟩ := hbox
  refine ⟨by rw [perturb_interior_length]; exact hlen, ?_⟩
  intro i hi
  have hix : i < x.length := by omega
  obtain ⟨hl, hu⟩ := hmem i hi
  by_cases hinf : (ubv.getD i F.nan).isInfinite = true ∨
      (lbv.getD i F.nan).isInfinite = true
  · rw [perturb_interior_untouched x lbv ubv nev s i hix (by tauto)]
    exact ⟨hl, hu⟩
  · push_neg at hinf
    have hlnan : lbv.getD i F.nan ≠ F.nan := F.ble_ne_nan_left hl
    have hunan : ubv.getD i F.nan ≠ F.nan := F.ble_ne_nan_right hu
    obtain ⟨qlo, hqlo⟩ : ∃ qlo, lbv.getD i F.nan = F.fin qlo := by
      cases hc : lbv.getD i F.nan
      · exact ⟨_, rfl⟩
      · rw [hc] at hinf
        exact absurd (show F.isInfinite F.inf = true from rfl) hinf.2
      · rw [hc] at hinf
        exact absurd (show F.isInfinite F.ninf = true from rfl) hinf.2
      · exact absurd hc hlnan
    obtain ⟨qhi, hqhi⟩ : ∃ qhi, ubv.getD i F.nan = F.fin qhi := by
      cases hc : ubv.getD i F.nan
      · exact ⟨_, rfl⟩
      · rw [hc] at hinf
        exact absurd (show F.isInfinite F.inf = true from rfl) hinf.1
      · rw [hc] at hinf
        exact absurd (show F.isInfinite F.ninf = true from rfl) hinf.1
      · exact absurd hc hunan
    by_cases hrange : F.ble (F.sub (ubv.getD i F.nan) (lbv.getD i F.nan))
        (F.fin 0) = true
    · rw [perturb_interior_untouched x lbv ubv nev s i hix (by tauto)]
      exact ⟨hl, hu⟩
    · have hlt : qlo < qhi := by
        rw [hqlo, hqhi] at hrange
        simp [F.sub, F.neg, F.add, F.ble] at hrange
        linarith
      rw [perturb_interior_touched x lbv ubv nev s i hix hi qlo qhi hqlo
        hqhi (by linarith)]
      rw [hqlo, hqhi]
      exact F.clampMaxMin_mem _ qlo qhi hlt

theorem runRestarts_inBox (problem : Problem) (ext : Externals)
    (progressCb : Option ProgressCallback) (reportFreq : Nat)
    (lb ub : List F)
    (hlib : ∀ (m : Nat) (pg : F) (mi : Nat) (x : List F)
      (obj : List F → EvalState → (F × List F) × EvalState)
      (itcb : IterInfo → CbState → IterationControl × CbState)
      (e0 : EvalState) (c0 : CbState),
      (ext.lbfgsbRun m pg mi x lb ub obj itcb e0 c0).eval.bestX = e0.bestX ∨
      inBoxQ problem.numEdges lb ub
        ((ext.lbfgsbRun m pg mi x lb ub obj itcb e0 c0).eval.bestX)) :
    ∀ (fuel r : Nat) (st : DriverState),
      inBoxQ problem.numEdges lb ub st.globalBestX →
      inBoxQ problem.numEdges lb ub st.x →
      inBoxQ problem.numEdges lb ub
        (runRestarts problem ext progressCb reportFreq lb ub r fuel
          st).1.globalBestX := by
  intro fuel
  induction fuel with
  | zero =>
    intro r st hg hx
    exact hg
  | succ fuel ih =>
    intro r st hg hx
    have hstep : runRestarts problem ext progressCb reportFreq lb ub r
        (fuel + 1) st
        = match driverBody problem ext progressCb reportFreq lb ub r st with
          | .next st1 =>
              runRestarts problem ext progressCb reportFreq lb ub (r + 1)
                fuel st1
          | .brk st1 => (st1, none)
          | .fail e => (st, some e) := rfl
    rw [hstep]
    simp only [driverBody]
    by_cases hbud : problem.maxIterations - st.totalIterations < 5
    · rw [if_pos hbud]
      exact hg
    · rw [if_neg hbud]
      cases hcn : ext.cacheNew with
      | error e =>
        dsimp only
        exact hg
      | ok u =>
        dsimp only
        set out := runSub problem ext progressCb reportFreq lb ub
          (subStartPoint lb ub problem.numEdges r st)
          (problem.maxIterations - st.totalIterations) st.totalIterations
          with hout
        set st2 := harvested st r (subStartPoint lb ub problem.numEdges r st)
          (problem.maxIterations - st.totalIterations) out with hst2
        have hxin : inBoxQ problem.numEdges lb ub
            (subStartPoint lb ub problem.numEdges r st) := by
          unfold subStartPoint
          split
          · exact perturb_preserves_inBoxQ _ _ _ _ _ hg
          · exact hx
        have hlib3 : out.eval.bestX = subStartPoint lb ub problem.numEdges r st
            ∨ inBoxQ problem.numEdges lb ub out.eval.bestX :=
          hlib 10 (F.fin 0) (problem.maxIterations - st.totalIterations)
            (subStartPoint lb ub problem.numEdges r st)
            (objectiveClosure ext.vag)
            (iterationCallback problem.absoluteTolerance
              problem.relativeTolerance reportFreq progressCb
              st.totalIterations)
            (freshEvalState (subStartPoint lb ub problem.numEdges r st))
            freshCbState
        have hbest : inBoxQ problem.numEdges lb ub out.eval.bestX := by
          rcases hlib3 with h | h
          · rw [h]
            exact hxin
          · exact h
        have hg2 : inBoxQ problem.numEdges lb ub st2.globalBestX := by
          show inBoxQ problem.numEdges lb ub
            (if F.blt out.eval.bestF st.globalBestF then out.eval.bestX
             else st.globalBestX)
          split
          · exact hbest
          · exact hg
        by_cases hstop : stepStops st2 out = true
        · rw [if_pos hstop]
          show inBoxQ problem.numEdges lb ub (stepState st2 out).globalBestX
          rw [stepState_globalBestX]
          exact hg2
        · rw [if_neg hstop]
          show inBoxQ problem.numEdges lb ub
            (runRestarts problem ext progressCb reportFreq lb ub (r + 1)
              fuel (stepState st2 out)).1.globalBestX
          refine ih (r + 1) (stepState st2 out) ?_ ?_
          · rw [stepState_globalBestX]
            exact hg2
          · rw [stepState_x]
            exact hxin

theorem progressStep_fst_ne_stopConverged (reportFreq : Nat)
    (progressCb : Option ProgressCallback) (info : IterInfo) (s : CbState) :
    (progressStep reportFreq progressCb info s).1 ≠ .StopConverged := by
  unfold progressStep
  cases progressCb with
  | none => simp
  | some cb =>
    simp only
    split
    · split <;> simp
    · simp

-- ─────────────────────────────────────────────────────────────
--  C9: factorization strategy selection
-- ─────────────────────────────────────────────────────────────

/-- C9: `FactorizationStrategy::from_bounds` is a pure function of the
bounds returning Cholesky iff every force-density lower bound is
strictly positive, and LDL for every bound set containing a lower bound
that is zero or negative. -/
theorem c9_strategy_from_bounds :
    (∀ b : Bounds, FactorizationStrategy.from_bounds b = .Cholesky ↔
      ∀ l ∈ b.lower, F.blt (F.fin 0) l = true) ∧
    (∀ b : Bounds, (∃ l ∈ b.lower, F.ble l (F.fin 0) = true) →
      FactorizationStrategy.from_bounds b = .LDL) := by
  constructor
  · intro b
    unfold FactorizationStrategy.from_bounds
    constructor
    · intro h
      by_contra hc
      rw [if_neg] at h
      · exact FactorizationStrategy.noConfusion h
      · intro hall
        rw [List.all_eq_true] at hall
        exact hc (fun l hl => hall l hl)
    · intro h
      rw [if_pos]
      rw [List.all_eq_true]
      exact fun l hl => h l hl
  · intro b hb
    obtain ⟨l, hl, hle⟩ := hb
    unfold FactorizationStrategy.from_bounds
    rw [if_neg]
    intro hall
    rw [List.all_eq_true] at hall
    have := hall l hl
    rw [F.ble_imp_not_blt hle] at this
    exact Bool.noConfusion this

/-- C9 witness: the theorem applied to the diagnostic tests' concrete
bound sets (`lower = 0.1` ⇒ Cholesky, `lower` containing `-5` ⇒ LDL). -/
theorem c9_strategy_from_bounds_witness :
    FactorizationStrategy.from_bounds
      { lower := [F.fin (1/10), F.fin (1/10)], upper := [F.inf, F.inf] }
      = .Cholesky ∧
    FactorizationStrategy.from_bounds
      { lower := [F.fin (-5), F.fin 20], upper := [F.fin 20, F.fin 20] }
      = .LDL := by
  constructor
  · apply (c9_strategy_from_bounds.1 _).2
    intro l hl
    simp only [List.mem_cons, List.not_mem_nil, or_false] at hl
    rcases hl with h | h <;> subst h <;> norm_num [F.blt]
  · exact c9_strategy_from_bounds.2 _ ⟨F.fin (-5), by simp, by decide⟩

-- ─────────────────────────────────────────────────────────────
--  C10: report_freq = 0 is normalised to 1
-- ─────────────────────────────────────────────────────────────

/-- C10: `optimize` with `report_freq = 0` behaves identically to
`report_freq = 1`: the frequency is normalised to `1` before use, the
normalised frequency is never `0` (so the reporting condition never
takes a modulo by zero), and with the normalised frequency every
evaluation is due for reporting. -/
theorem c10_report_freq_zero_normalised :
    (∀ (problem : Problem) (state : OptimizationState) (ext : Externals)
       (progressCb : Option ProgressCallback),
       optimize problem state ext progressCb 0 =
         optimize problem state ext progressCb 1) ∧
    normalizedReportFreq 0 = 1 ∧
    (∀ r : Nat, normalizedReportFreq r ≠ 0) ∧
    (∀ n : Nat, reportDue (normalizedReportFreq 0) n) := by
  refine ⟨fun p s e c => rfl, rfl, ?_, ?_⟩
  · intro r
    unfold normalizedReportFreq
    split <;> simp_all
  · intro n
    right
    simp [normalizedReportFreq, Nat.mod_one]

-- ─────────────────────────────────────────────────────────────
--  C2: the dual convergence criterion
-- ─────────────────────────────────────────────────────────────

/-- C2: the iteration callback returns `StopConverged` if and only if
the cumulative iteration count (across restarts) has reached the floor
of 10, AND the projected-gradient norm is ≤ the absolute tolerance, AND
the sliding window of the most recent `CONVERGENCE_WINDOW = 5` callback
values holds at least 2 values whose relative change is strictly below
the relative tolerance.  In particular neither the gradient condition
nor the objective condition alone suffices. -/
theorem c2_convergence_iff (absTol relTol : F) (reportFreq : Nat)
    (progressCb : Option ProgressCallback) (totalIterations : Nat)
    (info : IterInfo) (s : CbState) :
    (iterationCallback absTol relTol reportFreq progressCb totalIterations
        info s).1 = .StopConverged ↔
    (MIN_ITERATIONS_BEFORE_CONVERGENCE ≤ totalIterations + info.iteration ∧
     F.ble info.proj_grad_norm absTol = true ∧
     2 ≤ (pushWindow s.recentF info.f).length ∧
     F.blt (relChange (pushWindow s.recentF info.f)) relTol = true) := by
  unfold iterationCallback
  dsimp only
  split
  · rename_i hmain
    split
    · rename_i hlen
      split
      · rename_i hrel
        simp only [true_iff]
        exact ⟨hmain.1, hmain.2, hlen, hrel⟩
      · rename_i hrel
        constructor
        · intro h
          exact absurd h (progressStep_fst_ne_stopConverged _ _ _ _)
        · intro h
          exact absurd h.2.2.2 hrel
    · rename_i hlen
      constructor
      · intro h
        exact absurd h (progressStep_fst_ne_stopConverged _ _ _ _)
      · intro h
        exact absurd h.2.2.1 hlen
  · rename_i hmain
    constructor
    · intro h
      exact absurd h (progressStep_fst_ne_stopConverged _ _ _ _)
    · intro h
      exact absurd ⟨h.1, h.2.1⟩ hmain

-- ─────────────────────────────────────────────────────────────
--  C4: the failure penalty
-- ─────────────────────────────────────────────────────────────

/-- C4 (code/documentation divergence): when the very first evaluation
of a sub-search fails, `best_f` is still `+∞`, so the returned penalty
`best_f.abs().max(1.0) * 1e6` is `+∞ * 1e6 = +∞` — a non-finite value,
contradicting the documented "large finite penalty"; the fallback
gradient is the all-zero initial `last_valid_grad`. -/
theorem c4_first_eval_failure_penalty_not_finite :
    ((objectiveClosure (fun _ => .err) [F.fin 1]
        (freshEvalState [F.fin 1])).1.1 = F.inf) ∧
    (F.isFinite ((objectiveClosure (fun _ => .err) [F.fin 1]
        (freshEvalState [F.fin 1])).1.1) = false) ∧
    ((objectiveClosure (fun _ => .err) [F.fin 1]
        (freshEvalState [F.fin 1])).1.2 = [F.fin 0]) := by
  exact ⟨rfl, rfl, rfl⟩

-- ─────────────────────────────────────────────────────────────
--  C1: no memoization in the objective closure
-- ─────────────────────────────────────────────────────────────

/-- C1 counterexample: calling the objective closure twice in succession
with the bit-identical parameter vector `[2]` (against an oracle that
always succeeds with loss 1) appends TWO entries to the loss trace — a
second forward solve is performed, not a cached return, refuting the
claimed memoization. -/
theorem c1_memoization_counterexample :
    ((objectiveClosure (fun _ => .ok (F.fin 1) [F.fin 0]) [F.fin 2]
        ((objectiveClosure (fun _ => .ok (F.fin 1) [F.fin 0]) [F.fin 2]
            (freshEvalState [F.fin 2])).2)).2.lossTrace.length = 2) ∧
    ¬ ((objectiveClosure (fun _ => .ok (F.fin 1) [F.fin 0]) [F.fin 2]
        ((objectiveClosure (fun _ => .ok (F.fin 1) [F.fin 0]) [F.fin 2]
            (freshEvalState [F.fin 2])).2)).2.lossTrace.length = 1) := by
  exact ⟨rfl, by decide⟩

/-- C1 (amended): the evaluation surface is NOT memoized — `loss` and
`gradient` are computed together by one forward solve per call, and
every call with a successful solve appends exactly one entry to the loss
trace (a failing call appends none), regardless of whether `θ` equals
the previously evaluated vector; the values returned by a successful
call are exactly the oracle's values for that call. -/
theorem c1_each_call_appends_one_entry :
    (∀ (vag : List F → VagResult) (theta : List F) (s : EvalState),
      (objectiveClosure vag theta s).2.lossTrace.length =
        s.lossTrace.length +
          (match vag theta with | .ok _ _ => 1 | .err => 0)) ∧
    (∀ (vag : List F → VagResult) (theta : List F) (s : EvalState)
       (val : F) (grad : List F),
      vag theta = .ok val grad →
      (objectiveClosure vag theta s).1 = (val, grad)) := by
  constructor
  · intro vag theta s
    unfold objectiveClosure
    cases h : vag theta with
    | ok val grad => simp [h]; split <;> simp
    | err => simp [h]
  · intro vag theta s val grad h
    unfold objectiveClosure
    rw [h]

/-- C1 witness: the amended theorem applied at the counterexample's
concrete input. -/
theorem c1_each_call_appends_one_entry_witness :
    (objectiveClosure (fun _ => .ok (F.fin 1) [F.fin 0]) [F.fin 2]
        (freshEvalState [F.fin 2])).2.lossTrace.length = 0 + 1 ∧
    (objectiveClosure (fun _ => .ok (F.fin 1) [F.fin 0]) [F.fin 2]
        (freshEvalState [F.fin 2])).1 = (F.fin 1, [F.fin 0]) := by
  constructor
  · exact c1_each_call_appends_one_entry.1 _ [F.fin 2] (freshEvalState [F.fin 2])
  · exact c1_each_call_appends_one_entry.2 _ [F.fin 2] (freshEvalState [F.fin 2])
      (F.fin 1) [F.fin 0] rfl

-- ─────────────────────────────────────────────────────────────
--  C3: the restart policy
-- ─────────────────────────────────────────────────────────────

/-- C3: for every run of `optimize` (over arbitrary library, oracle and
workspace behaviour): at most `1 + MAX_RESTARTS` sub-searches occur
(i.e. at most 3 restarts); no sub-search begins with fewer than 5
remaining budget iterations, and each one receives a freshly created
closure state (empty trace, `best_f = ∞`) and a fresh window/cancel
state; every restarted sub-search `k+1` carries restart index `k+1` and
starts exactly at `perturb_interior` applied to the global best over all
prior sub-searches with strength `0.02 × (k+1)`, and its predecessor
terminated neither converged nor cancelled.  `perturb_interior` moves
each q-parameter having finite bounds and positive range toward the
bound midpoint by the strength, clamping the result into the box, and
leaves every other component unchanged. -/
theorem c3_restart_policy (problem : Problem) (state : OptimizationState)
    (ext : Externals) (progressCb : Option ProgressCallback)
    (reportFreq : Nat) :
    ((optimize problem state ext progressCb reportFreq).driver.log.length
        ≤ 1 + MAX_RESTARTS) ∧
    (∀ e ∈ (optimize problem state ext progressCb reportFreq).driver.log,
        5 ≤ e.remainingIter ∧ e.evalInit = freshEvalState e.startX ∧
        e.cbInit = freshCbState) ∧
    (∀ k (h : k + 1 < (optimize problem state ext progressCb
        reportFreq).driver.log.length),
      ((optimize problem state ext progressCb reportFreq).driver.log.get
          ⟨k + 1, h⟩).restartIdx = k + 1 ∧
      ((optimize problem state ext progressCb reportFreq).driver.log.get
          ⟨k + 1, h⟩).startX =
        perturb_interior
          (harvestBest (initialPoint problem state)
            ((outcomesOf (optimize problem state ext progressCb
              reportFreq).driver.log).take (k + 1))).1
          (parameter_bounds problem).1 (parameter_bounds problem).2
          problem.numEdges (restartStrength (k + 1)) ∧
      outcomeNonStop ((optimize problem state ext progressCb
          reportFreq).driver.log.get ⟨k, by omega⟩).outcome) ∧
    (∀ r : Nat, restartStrength r = F.fin (2 / 100 * (r : ℚ))) ∧
    (∀ (x lbv ubv : List F) (nev : Nat) (s : F) (i : Nat) (lo hi : ℚ),
      i < x.length → i < nev →
      lbv.getD i F.nan = F.fin lo → ubv.getD i F.nan = F.fin hi →
      ¬ hi - lo ≤ 0 →
      (perturb_interior x lbv ubv nev s).getD i F.nan =
        F.minNum
          (F.maxNum
            (F.add (x.getD i F.nan)
              (F.mul
                (F.sub (F.mul (F.add (F.fin lo) (F.fin hi)) (F.fin (1/2)))
                  (x.getD i F.nan)) s))
            (F.fin lo))
          (F.fin hi)) ∧
    (∀ (x lbv ubv : List F) (nev : Nat) (s : F) (i : Nat),
      i < x.length →
      (¬ i < nev ∨ (ubv.getD i F.nan).isInfinite = true ∨
        (lbv.getD i F.nan).isInfinite = true ∨
        F.ble (F.sub (ubv.getD i F.nan) (lbv.getD i F.nan)) (F.fin 0)
          = true) →
      (perturb_interior x lbv ubv nev s).getD i F.nan = x.getD i F.nan) := by
  have hd := optimize_driver_eq problem state ext progressCb reportFreq
  obtain ⟨hfin, hlen, hcanc⟩ := runRestarts_spec problem ext progressCb
    (normalizedReportFreq reportFreq) (parameter_bounds problem).1
    (parameter_bounds problem).2 (initialPoint problem state)
    (MAX_RESTARTS + 1) 0 (initialDriverState (initialPoint problem state))
    (driverInv_init _ _ _ _)
  rw [hd]
  refine ⟨by omega, ?_, ?_, fun r => rfl,
    fun x lbv ubv nev s i lo hi h1 h2 h3 h4 h5 =>
      perturb_interior_touched x lbv ubv nev s i h1 h2 lo hi h3 h4 h5,
    fun x lbv ubv nev s i h1 h2 =>
      perturb_interior_untouched x lbv ubv nev s i h1 h2⟩
  · intro e he
    obtain ⟨i, hi, hei⟩ := List.mem_iff_getElem.mp he
    have hw := hfin.invWF i hi
    rw [List.get_eq_getElem] at hw
    rw [hei] at hw
    exact hw
  · intro k h
    exact ⟨hfin.idx (k + 1) h, hfin.link (k + 1) h (by omega),
      hfin.nonStopButLast k (by omega) (by omega)⟩

/-- C3 witness: the restart-policy theorem applied at a concrete
problem, state and collaborator set. -/
theorem c3_restart_policy_witness :
    (optimize tinyProblem tinyState trivialExt none 1).driver.log.length
      ≤ 1 + MAX_RESTARTS ∧
    ∀ e ∈ (optimize tinyProblem tinyState trivialExt none 1).driver.log,
      5 ≤ e.remainingIter ∧ e.evalInit = freshEvalState e.startX ∧
      e.cbInit = freshCbState :=
  ⟨(c3_restart_policy tinyProblem tinyState trivialExt none 1).1,
   (c3_restart_policy tinyProblem tinyState trivialExt none 1).2.1⟩

-- ─────────────────────────────────────────────────────────────
--  C5: cancellation semantics
-- ─────────────────────────────────────────────────────────────

/-- C5: (i) when the progress callback returns the stop sentinel `0` at
a reported evaluation, the reporting step sets the cancel flag and
returns `StopCustom` to the library; (ii) whenever the iteration
callback newly sets the cancel flag it simultaneously returns
`StopCustom`, stopping the sub-search; (iii) at the driver level, a
sub-search whose outcome is cancelled is the last sub-search of the run
(no restart follows it), and `optimize` returns `Err(Cancelled)` — not
an `Ok` result marked converged or budget-exhausted. -/
theorem c5_cancellation (problem : Problem) (state : OptimizationState)
    (ext : Externals) (progressCb : Option ProgressCallback)
    (reportFreq : Nat) :
    (∀ (rf : Nat) (cb : ProgressCallback) (info : IterInfo) (s : CbState),
      reportDue rf info.n_func_evals →
      cb info.n_func_evals info.f = 0 →
      progressStep rf (some cb) info s
        = (.StopCustom, { s with cancelled := true })) ∧
    (∀ (absTol relTol : F) (rf : Nat) (pcb : Option ProgressCallback)
       (totIt : Nat) (info : IterInfo) (s : CbState),
      s.cancelled = false →
      (iterationCallback absTol relTol rf pcb totIt info s).2.cancelled
        = true →
      (iterationCallback absTol relTol rf pcb totIt info s).1
        = .StopCustom) ∧
    (∀ k (h : k < (optimize problem state ext progressCb
        reportFreq).driver.log.length),
      ((optimize problem state ext progressCb reportFreq).driver.log.get
          ⟨k, h⟩).outcome.cb.cancelled = true →
      k + 1 = (optimize problem state ext progressCb
        reportFreq).driver.log.length ∧
      (optimize problem state ext progressCb reportFreq).result
        = .error .Cancelled) := by
  refine ⟨?_, ?_, ?_⟩
  · intro rf cb info s hdue hstop
    unfold progressStep
    dsimp only
    rw [if_pos hdue, if_pos hstop]
  · intro absTol relTol rf pcb totIt info s hs hcanc
    unfold iterationCallback at hcanc ⊢
    dsimp only at hcanc ⊢
    split_ifs at hcanc ⊢
    · dsimp only at hcanc
      rw [hs] at hcanc
      exact absurd hcanc (by decide)
    · exact @cancelled_progressStep_stopCustom rf pcb info
        { recentF := pushWindow s.recentF info.f,
          cancelled := s.cancelled } hs hcanc
    · exact @cancelled_progressStep_stopCustom rf pcb info
        { recentF := pushWindow s.recentF info.f,
          cancelled := s.cancelled } hs hcanc
    · exact @cancelled_progressStep_stopCustom rf pcb info
        { recentF := pushWindow s.recentF info.f,
          cancelled := s.cancelled } hs hcanc
  · intro k
    have hd := optimize_driver_eq problem state ext progressCb reportFreq
    obtain ⟨hfin, hlen, hcancprop⟩ := runRestarts_spec problem ext progressCb
      (normalizedReportFreq reportFreq) (parameter_bounds problem).1
      (parameter_bounds problem).2 (initialPoint problem state)
      (MAX_RESTARTS + 1) 0 (initialDriverState (initialPoint problem state))
      (driverInv_init _ _ _ _)
    rw [hd]
    intro h hcanc
    have hwc := hfin.cancelImp k h hcanc
    constructor
    · by_contra hne
      have hklast : k + 1 < (runRestarts problem ext progressCb
          (normalizedReportFreq reportFreq) (parameter_bounds problem).1
          (parameter_bounds problem).2 0 (MAX_RESTARTS + 1)
          (initialDriverState (initialPoint problem state))).1.log.length := by
        omega
      have := (hfin.nonStopButLast k h hklast).1
      rw [this] at hcanc
      exact absurd hcanc (by simp)
    · have hnone : (runRestarts problem ext progressCb
          (normalizedReportFreq reportFreq) (parameter_bounds problem).1
          (parameter_bounds problem).2 0 (MAX_RESTARTS + 1)
          (initialDriverState (initialPoint problem state))).2 = none := by
        by_contra hne
        rw [hcancprop hne] at hwc
        exact absurd hwc (by simp)
      exact optimize_result_cancelled problem state ext progressCb reportFreq
        hwc hnone

/-- C5 witness: with a progress callback that always answers the stop
sentinel, the concrete run logs exactly one sub-search and `optimize`
returns `Err(Cancelled)`. -/
theorem c5_cancellation_witness :
    0 + 1 = (optimize tinyProblem tinyState cancellingExt
      (some (fun _ _ => 0)) 1).driver.log.length ∧
    (optimize tinyProblem tinyState cancellingExt
      (some (fun _ _ => 0)) 1).result = .error .Cancelled := by
  have h0 : 0 < (optimize tinyProblem tinyState cancellingExt
      (some (fun _ _ => 0)) 1).driver.log.length := by decide
  have hc : ((optimize tinyProblem tinyState cancellingExt
      (some (fun _ _ => 0)) 1).driver.log.get ⟨0, h0⟩).outcome.cb.cancelled
      = true := by rfl
  exact (c5_cancellation tinyProblem tinyState cancellingExt
    (some (fun _ _ => 0)) 1).2.2 0 h0 hc

-- ─────────────────────────────────────────────────────────────
--  C7: bounds satisfaction
-- ─────────────────────────────────────────────────────────────

/-- C7: under the Problem shape invariants (bounds and force-density
lengths equal the edge count, finite/non-NaN initial guess entries,
componentwise-ordered bounds) and the L-BFGS-B feasibility guarantee
(the library's best point is either its start point or lies in the box —
its external contract), every `Ok` run of `optimize` returns force
densities satisfying `lower ≤ q ≤ upper` componentwise (exactly, hence
within any `ε ≥ 0`), and commits the same vector to the
`OptimizationState`; this holds even when the initial guess lies outside
the box, since the start point is projected into the box first. -/
theorem c7_bounds_satisfaction (problem : Problem)
    (state : OptimizationState) (ext : Externals)
    (progressCb : Option ProgressCallback) (reportFreq : Nat)
    (hfd_len : state.forceDensities.length = problem.numEdges)
    (hlow_len : problem.lower.length = problem.numEdges)
    (hup_len : problem.upper.length = problem.numEdges)
    (hfd_nan : ∀ i, i < problem.numEdges →
      state.forceDensities.getD i F.nan ≠ F.nan)
    (hbox : ∀ i, i < problem.numEdges →
      F.ble (problem.lower.getD i F.nan) (problem.upper.getD i F.nan)
        = true)
    (hlib : ∀ (m : Nat) (pg : F) (mi : Nat) (x : List F)
      (obj : List F → EvalState → (F × List F) × EvalState)
      (itcb : IterInfo → CbState → IterationControl × CbState)
      (e0 : EvalState) (c0 : CbState),
      (ext.lbfgsbRun m pg mi x (parameter_bounds problem).1
        (parameter_bounds problem).2 obj itcb e0 c0).eval.bestX = e0.bestX ∨
      inBoxQ problem.numEdges (parameter_bounds problem).1
        (parameter_bounds problem).2
        ((ext.lbfgsbRun m pg mi x (parameter_bounds problem).1
          (parameter_bounds problem).2 obj itcb e0 c0).eval.bestX)) :
    ∀ res : SolverResult,
      (optimize problem state ext progressCb reportFreq).result = .ok res →
      ∀ i, i < problem.numEdges →
        F.ble (problem.lower.getD i F.nan) (res.q.getD i F.nan) = true ∧
        F.ble (res.q.getD i F.nan) (problem.upper.getD i F.nan) = true ∧
        ((optimize problem state ext progressCb
          reportFreq).stateOut.forceDensities) = res.q := by
  intro res hres i hi
  have hlbGet : ∀ j, j < problem.numEdges →
      (parameter_bounds problem).1.getD j F.nan
        = problem.lower.getD j F.nan := by
    intro j hj
    unfold parameter_bounds
    dsimp only
    split
    · exact List.getD_append _ _ _ _ (by omega)
    · rfl
  have hubGet : ∀ j, j < problem.numEdges →
      (parameter_bounds problem).2.getD j F.nan
        = problem.upper.getD j F.nan := by
    intro j hj
    unfold parameter_bounds
    dsimp only
    split
    · exact List.getD_append _ _ _ _ (by omega)
    · rfl
  have hpackGet : ∀ j, j < problem.numEdges →
      (pack_parameters problem state).getD j F.nan
        = state.forceDensities.getD j F.nan := by
    intro j hj
    unfold pack_parameters
    exact List.getD_append _ _ _ _ (by omega)
  have hx0 : inBoxQ problem.numEdges (parameter_bounds problem).1
      (parameter_bounds problem).2 (initialPoint problem state) := by
    unfold initialPoint
    apply project_to_bounds_inBoxQ
    · show problem.numEdges ≤ (pack_parameters problem state).length
      unfold pack_parameters
      rw [List.length_append]
      omega
    · intro j hj
      rw [hlbGet j hj, hubGet j hj]
      exact hbox j hj
    · intro j hj
      rw [hpackGet j hj]
      exact hfd_nan j hj
  have hgb := runRestarts_inBox problem ext progressCb
    (normalizedReportFreq reportFreq) (parameter_bounds problem).1
    (parameter_bounds problem).2 hlib (MAX_RESTARTS + 1) 0
    (initialDriverState (initialPoint problem state)) hx0 hx0
  have hq := optimize_ok_q problem state ext progressCb reportFreq res hres
  have hd := optimize_driver_eq problem state ext progressCb reportFreq
  obtain ⟨hne_le, hgbmem⟩ := hgb
  have hqget : res.q.getD i F.nan =
      ((runRestarts problem ext progressCb (normalizedReportFreq reportFreq)
        (parameter_bounds problem).1 (parameter_bounds problem).2 0
        (MAX_RESTARTS + 1)
        (initialDriverState (initialPoint problem state))).1.globalBestX).getD
        i F.nan := by
    rw [hq.1, hd]
    unfold unpack_parameters
    exact getD_take _ _ _ _ hi (by omega)
  refine ⟨?_, ?_, hq.2⟩
  · rw [hqget, ← hlbGet i hi]
    exact (hgbmem i hi).1
  · rw [hqget, ← hubGet i hi]
    exact (hgbmem i hi).2

/-- C7 witness: the bounds-satisfaction theorem at a concrete converging
run whose initial guess `q = 0` lies below the box `[1, 2]`: the
returned and committed force density is the projected `1`. -/
theorem c7_bounds_satisfaction_witness :
    F.ble (tinyProblem.lower.getD 0 F.nan) ([F.fin 1].getD 0 F.nan)
      = true ∧
    F.ble ([F.fin 1].getD 0 F.nan) (tinyProblem.upper.getD 0 F.nan)
      = true ∧
    ((optimize tinyProblem tinyState convergingExt none
      1).stateOut.forceDensities) = [F.fin 1] := by
  have hres : (optimize tinyProblem tinyState convergingExt none 1).result
      = Except.ok tinyResult := by rfl
  have hnan : ∀ i, i < tinyProblem.numEdges →
      tinyState.forceDensities.getD i F.nan ≠ F.nan := by decide
  have hbx : ∀ i, i < tinyProblem.numEdges →
      F.ble (tinyProblem.lower.getD i F.nan)
        (tinyProblem.upper.getD i F.nan) = true := by decide
  have hlib : ∀ (m : Nat) (pg : F) (mi : Nat) (x : List F)
      (obj : List F → EvalState → (F × List F) × EvalState)
      (itcb : IterInfo → CbState → IterationControl × CbState)
      (e0 : EvalState) (c0 : CbState),
      (convergingExt.lbfgsbRun m pg mi x (parameter_bounds tinyProblem).1
        (parameter_bounds tinyProblem).2 obj itcb e0 c0).eval.bestX
        = e0.bestX ∨
      inBoxQ tinyProblem.numEdges (parameter_bounds tinyProblem).1
        (parameter_bounds tinyProblem).2
        ((convergingExt.lbfgsbRun m pg mi x (parameter_bounds tinyProblem).1
          (parameter_bounds tinyProblem).2 obj itcb e0 c0).eval.bestX) := by
    intro m pg mi x obj itcb e0 c0
    left
    rfl
  exact c7_bounds_satisfaction tinyProblem tinyState convergingExt none 1
    rfl rfl rfl hnan hbx hlib tinyResult hres 0 (by decide)

-- ─────────────────────────────────────────────────────────────
--  C8: monotone global best
-- ─────────────────────────────────────────────────────────────

/-- C8: (i) within a sub-search, each objective-closure call leaves
`best_f` no larger (and never NaN); (ii) along any evaluation schedule
from the fresh per-sub-search state, the final `best_f` is ≤ the initial
`+∞`; (iii) across the entire run, the harvested global best over any
longer prefix of logged sub-searches is ≤ that over any shorter prefix;
(iv) the driver's tracked global best is exactly the harvest fold of the
logged outcomes; and (v) an `Ok` result's force densities are unpacked
from the global best point (also committed to the state), so a restart
never discards a better earlier point. -/
theorem c8_monotone_global_best (problem : Problem)
    (state : OptimizationState) (ext : Externals)
    (progressCb : Option ProgressCallback) (reportFreq : Nat) :
    (∀ (vag : List F → VagResult) (theta : List F) (s : EvalState),
      s.bestF ≠ F.nan →
      F.ble (objectiveClosure vag theta s).2.bestF s.bestF = true) ∧
    (∀ (vag : List F → VagResult) (thetas : List (List F)) (x : List F),
      F.ble (evalRun vag thetas (freshEvalState x)).bestF
        (freshEvalState x).bestF = true) ∧
    (∀ k kk : Nat, k ≤ kk →
      F.ble
        (harvestBest (initialPoint problem state)
          ((outcomesOf (optimize problem state ext progressCb
            reportFreq).driver.log).take kk)).2
        (harvestBest (initialPoint problem state)
          ((outcomesOf (optimize problem state ext progressCb
            reportFreq).driver.log).take k)).2 = true) ∧
    (((optimize problem state ext progressCb reportFreq).driver.globalBestX,
      (optimize problem state ext progressCb reportFreq).driver.globalBestF)
      = harvestBest (initialPoint problem state)
          (outcomesOf (optimize problem state ext progressCb
            reportFreq).driver.log)) ∧
    (∀ res : SolverResult,
      (optimize problem state ext progressCb reportFreq).result = .ok res →
      res.q = (unpack_parameters problem
        ((optimize problem state ext progressCb
          reportFreq).driver.globalBestX)).1 ∧
      ((optimize problem state ext progressCb
        reportFreq).stateOut.forceDensities) = res.q) := by
  have hd := optimize_driver_eq problem state ext progressCb reportFreq
  obtain ⟨hfin, hlen, hcancprop⟩ := runRestarts_spec problem ext progressCb
    (normalizedReportFreq reportFreq) (parameter_bounds problem).1
    (parameter_bounds problem).2 (initialPoint problem state)
    (MAX_RESTARTS + 1) 0 (initialDriverState (initialPoint problem state))
    (driverInv_init _ _ _ _)
  refine ⟨?_, ?_, ?_, ?_, ?_⟩
  · intro vag theta s hs
    exact (objectiveClosure_bestF_mono vag theta s hs).1
  · intro vag thetas x
    exact (evalRun_bestF_mono vag thetas (freshEvalState x) (by
      show F.inf ≠ F.nan
      simp)).1
  · intro k kk hk
    exact harvestBest_take_mono _ _ k kk hk
  · rw [hd]
    exact hfin.gbest
  · intro res h
    exact optimize_ok_q problem state ext progressCb reportFreq res h

/-- C8 witness: the monotonicity and final-answer conjuncts applied at a
concrete converging run (the projected initial point `[1]` is the global
best and is committed to the state). -/
theorem c8_monotone_global_best_witness :
    F.ble
      (harvestBest (initialPoint tinyProblem tinyState)
        ((outcomesOf (optimize tinyProblem tinyState convergingExt none
          1).driver.log).take 1)).2
      (harvestBest (initialPoint tinyProblem tinyState)
        ((outcomesOf (optimize tinyProblem tinyState convergingExt none
          1).driver.log).take 0)).2 = true ∧
    ((optimize tinyProblem tinyState convergingExt none
      1).stateOut.forceDensities) = [F.fin 1] := by
  constructor
  · exact (c8_monotone_global_best tinyProblem tinyState convergingExt none
      1).2.2.1 0 1 (by omega)
  · exact ((c8_monotone_global_best tinyProblem tinyState convergingExt none
      1).2.2.2.2
      { q := [F.fin 1], anchor_positions := [], loss_trace := [],
        iterations := 10, converged := true,
        termination_reason := .fromStatus .Converged } rfl).2

-- ─────────────────────────────────────────────────────────────
--  C6: pack / unpack round trip
-- ─────────────────────────────────────────────────────────────

/-- C6: `pack_parameters` and `unpack_parameters` are mutually inverse
under the fixed ordering (force densities first, then variable-anchor
coordinates row-major, 3 per anchor): unpacking a packed state
reproduces the state, and packing an unpacked `θ` of length
`edges + 3 × variable-anchors` reproduces `θ`. -/
theorem c6_pack_unpack_roundtrip :
    (∀ (p : Problem) (s : OptimizationState),
      s.forceDensities.length = p.numEdges →
      s.variableAnchorPositions.length = p.numVariableAnchors →
      (∀ row ∈ s.variableAnchorPositions, row.length = 3) →
      unpack_parameters p (pack_parameters p s) =
        (s.forceDensities, s.variableAnchorPositions)) ∧
    (∀ (p : Problem) (theta : List F),
      theta.length = p.numEdges + 3 * p.numVariableAnchors →
      pack_parameters p
        { forceDensities := (unpack_parameters p theta).1,
          variableAnchorPositions := (unpack_parameters p theta).2,
          iterations := 0, lossTrace := [] } = theta) := by
  constructor
  · intro p s h1 h2 h3
    unfold pack_parameters unpack_parameters
    dsimp only
    by_cases hn : 0 < p.numVariableAnchors
    · rw [if_pos hn, if_pos hn]
      simp only [Prod.mk.injEq]
      constructor
      · rw [← h1, List.take_left]
      · apply List.ext_getElem
        · simp [h2]
        · intro i hi1 hi2
          rw [List.getElem_map]
          simp only [List.getElem_range]
          have hirange : i < p.numVariableAnchors := h2 ▸ hi2
          have htrip := getD_range_flatMap_triple
            (fun j => (s.variableAnchorPositions.getD j []).getD 0 F.nan)
            (fun j => (s.variableAnchorPositions.getD j []).getD 1 F.nan)
            (fun j => (s.variableAnchorPositions.getD j []).getD 2 F.nan)
            p.numVariableAnchors i hirange F.nan
          have hidx0 : p.numEdges + i * 3 = s.forceDensities.length + 3 * i := by omega
          have hidx1 : p.numEdges + i * 3 + 1 = s.forceDensities.length + (3 * i + 1) := by
            omega
          have hidx2 : p.numEdges + i * 3 + 2 = s.forceDensities.length + (3 * i + 2) := by
            omega
          rw [hidx2, hidx1, hidx0]
          rw [List.getD_append_right _ _ _ _ (by omega),
              List.getD_append_right _ _ _ _ (by omega),
              List.getD_append_right _ _ _ _ (by omega)]
          simp only [Nat.add_sub_cancel_left]
          rw [htrip.1, htrip.2.1, htrip.2.2]
          have hrow : s.variableAnchorPositions.getD i [] =
              s.variableAnchorPositions.get ⟨i, hi2⟩ := by
            rw [List.get_eq_getElem]
            exact List.getD_eq_getElem _ _ hi2
          rw [hrow]
          exact list3_getD_eta _ (h3 _ (List.get_mem _ _ hi2)) F.nan
    · rw [if_neg hn, if_neg hn]
      have h0 : p.numVariableAnchors = 0 := by omega
      simp only [Prod.mk.injEq]
      constructor
      · rw [List.append_nil, ← h1, List.take_length]
      · symm
        rw [← List.length_eq_zero]
        omega
  · intro p theta hlen
    unfold pack_parameters unpack_parameters
    dsimp only
    by_cases hn : 0 < p.numVariableAnchors
    · rw [if_pos hn, if_pos hn]
      have htake : (theta.take p.numEdges).length = p.numEdges := by
        rw [List.length_take]
        omega
      have hflatlen := length_range_flatMap_triple
        (fun i => (((List.range p.numVariableAnchors).map (fun j =>
            [theta.getD (p.numEdges + j * 3) F.nan,
             theta.getD (p.numEdges + j * 3 + 1) F.nan,
             theta.getD (p.numEdges + j * 3 + 2) F.nan])).getD i []).getD 0 F.nan)
        (fun i => (((List.range p.numVariableAnchors).map (fun j =>
            [theta.getD (p.numEdges + j * 3) F.nan,
             theta.getD (p.numEdges + j * 3 + 1) F.nan,
             theta.getD (p.numEdges + j * 3 + 2) F.nan])).getD i []).getD 1 F.nan)
        (fun i => (((List.range p.numVariableAnchors).map (fun j =>
            [theta.getD (p.numEdges + j * 3) F.nan,
             theta.getD (p.numEdges + j * 3 + 1) F.nan,
             theta.getD (p.numEdges + j * 3 + 2) F.nan])).getD i []).getD 2 F.nan)
        p.numVariableAnchors
      have hmapget : ∀ i, i < p.numVariableAnchors →
          (((List.range p.numVariableAnchors).map (fun j =>
            [theta.getD (p.numEdges + j * 3) F.nan,
             theta.getD (p.numEdges + j * 3 + 1) F.nan,
             theta.getD (p.numEdges + j * 3 + 2) F.nan])).getD i []) =
          [theta.getD (p.numEdges + i * 3) F.nan,
           theta.getD (p.numEdges + i * 3 + 1) F.nan,
           theta.getD (p.numEdges + i * 3 + 2) F.nan] := by
        intro i hi
        rw [List.getD_eq_getElem _ _ (by simpa using hi), List.getElem_map]
        simp only [List.getElem_range]
      apply list_ext_getD
      · rw [List.length_append, htake, hflatlen]
        omega
      · intro k hk
        by_cases hke : k < p.numEdges
        · rw [List.getD_append _ _ _ _ (by omega)]
          rw [List.getD_eq_getElem _ _ (by omega), List.getD_eq_getElem _ _ (by omega)]
          exact List.getElem_take _
        · rw [List.getD_append_right _ _ _ _ (by omega), htake]
          set m := k - p.numEdges with hm
          have hmlt : m < 3 * p.numVariableAnchors := by
            rw [List.length_append, htake, hflatlen] at hk
            omega
          have hdiv : m / 3 < p.numVariableAnchors := by omega
          have htrip := getD_range_flatMap_triple
            (fun i => (((List.range p.numVariableAnchors).map (fun j =>
                [theta.getD (p.numEdges + j * 3) F.nan,
                 theta.getD (p.numEdges + j * 3 + 1) F.nan,
                 theta.getD (p.numEdges + j * 3 + 2) F.nan])).getD i []).getD 0 F.nan)
            (fun i => (((List.range p.numVariableAnchors).map (fun j =>
                [theta.getD (p.numEdges + j * 3) F.nan,
                 theta.getD (p.numEdges + j * 3 + 1) F.nan,
                 theta.getD (p.numEdges + j * 3 + 2) F.nan])).getD i []).getD 1 F.nan)
            (fun i => (((List.range p.numVariableAnchors).map (fun j =>
                [theta.getD (p.numEdges + j * 3) F.nan,
                 theta.getD (p.numEdges + j * 3 + 1) F.nan,
                 theta.getD (p.numEdges + j * 3 + 2) F.nan])).getD i []).getD 2 F.nan)
            p.numVariableAnchors (m / 3) hdiv F.nan
          have hmod : m % 3 = 0 ∨ m % 3 = 1 ∨ m % 3 = 2 := by omega
          rcases hmod with h0 | h1 | h2
          · rw [show m = 3 * (m / 3) by omega, htrip.1, hmapget _ hdiv]
            show theta.getD (p.numEdges + m / 3 * 3) F.nan = _
            congr 1
            omega
          · rw [show m = 3 * (m / 3) + 1 by omega, htrip.2.1, hmapget _ hdiv]
            show theta.getD (p.numEdges + m / 3 * 3 + 1) F.nan = _
            congr 1
            omega
          · rw [show m = 3 * (m / 3) + 2 by omega, htrip.2.2, hmapget _ hdiv]
            show theta.getD (p.numEdges + m / 3 * 3 + 2) F.nan = _
            congr 1
            omega
    · rw [if_neg hn]
      rw [List.append_nil, show p.numEdges = theta.length by omega, List.take_length]

/-- C6 witness: the round trip evaluated on a concrete 2-edge,
1-variable-anchor problem and on a concrete `θ` of length 5. -/
theorem c6_pack_unpack_roundtrip_witness :
    unpack_parameters
      { numEdges := 2, numVariableAnchors := 1, lower := [], upper := [],
        absoluteTolerance := F.fin 0, relativeTolerance := F.fin 0,
        maxIterations := 0 }
      (pack_parameters
        { numEdges := 2, numVariableAnchors := 1, lower := [], upper := [],
          absoluteTolerance := F.fin 0, relativeTolerance := F.fin 0,
          maxIterations := 0 }
        { forceDensities := [F.fin 1, F.fin 2],
          variableAnchorPositions := [[F.fin 3, F.fin 4, F.fin 5]],
          iterations := 0, lossTrace := [] }) =
      ([F.fin 1, F.fin 2], [[F.fin 3, F.fin 4, F.fin 5]]) ∧
    pack_parameters
      { numEdges := 2, numVariableAnchors := 1, lower := [], upper := [],
        absoluteTolerance := F.fin 0, relativeTolerance := F.fin 0,
        maxIterations := 0 }
      { forceDensities :=
          (unpack_parameters
            { numEdges := 2, numVariableAnchors := 1, lower := [], upper := [],
              absoluteTolerance := F.fin 0, relativeTolerance := F.fin 0,
              maxIterations := 0 }
            [F.fin 1, F.fin 2, F.fin 3, F.fin 4, F.fin 5]).1,
        variableAnchorPositions :=
          (unpack_parameters
            { numEdges := 2, numVariableAnchors := 1, lower := [], upper := [],
              absoluteTolerance := F.fin 0, relativeTolerance := F.fin 0,
              maxIterations := 0 }
            [F.fin 1, F.fin 2, F.fin 3, F.fin 4, F.fin 5]).2,
        iterations := 0, lossTrace := [] } =
      [F.fin 1, F.fin 2, F.fin 3, F.fin 4, F.fin 5] := by
  constructor
  · exact c6_pack_unpack_roundtrip.1 _
      { forceDensities := [F.fin 1, F.fin 2],
        variableAnchorPositions := [[F.fin 3, F.fin 4, F.fin 5]],
        iterations := 0, lossTrace := [] }
      rfl rfl (by intro row hrow; simp at hrow; subst hrow; rfl)
  · exact c6_pack_unpack_roundtrip.2 _
      [F.fin 1, F.fin 2, F.fin 3, F.fin 4, F.fin 5] rfl

end Theseus
